/-
A verification development for the schema generator in src/generate-schemas.js.
It gives a shallow embedding of the JavaScript value model the script works
with, of its conversion functions propToSchema and descToSchema, and of the
name sanitizer safeName, and proves theorems about their behaviour.
-/
import Mathlib

set_option maxHeartbeats 1600000

namespace GenSchemas

/-- JavaScript runtime values as the script manipulates them: undefined, null,
booleans, (integer) numbers, strings, arrays, and plain objects represented as
ordered association lists of own properties.  A key present with value
`undef` differs from the key being absent, which matters for the `in`
operator versus a `!== undefined` test. -/
inductive JValue : Type where
  | undef : JValue
  | null : JValue
  | bool : Bool → JValue
  | num : Int → JValue
  | str : String → JValue
  | arr : List JValue → JValue
  | obj : List (String × JValue) → JValue

/-- Strict-equality test of a value against a string literal, as the switch of
propToSchema performs with `===`. -/
def eqStr (v : JValue) (s : String) : Bool :=
  match v with
  | .str s2 => s2 == s
  | _ => false

/-- Test for the undefined value (the `!== undefined` checks negate it). -/
def isUndef : JValue → Bool
  | .undef => true
  | _ => false

/-- Reading an own property from an association-list object: the value of the
first binding of the key, `undef` when the key is absent. -/
def lookupField : List (String × JValue) → String → JValue
  | [], _ => (.undef)
  | (k, v) :: rest, key => if k = key then v else lookupField rest key

/-- Whether an association-list object has a binding for a key (even one whose
value is `undef`); this is what the JavaScript `in` operator tests. -/
def hasField : List (String × JValue) → String → Bool
  | [], _ => false
  | (k, _) :: rest, key => k == key || hasField rest key

/-- JavaScript property assignment `o[key] = v` on an association-list object:
an existing binding keeps its position and gets the new value, a new key is
appended at the end. -/
def setField : List (String × JValue) → String → JValue → List (String × JValue)
  | [], key, v => [(key, v)]
  | (k, w) :: rest, key, v =>
    if k = key then (k, v) :: rest else (k, w) :: setField rest key v

/-- Number of bindings of a key in an association-list object (a well-formed
JavaScript object has at most one). -/
def keyCount : List (String × JValue) → String → Nat
  | [], _ => 0
  | (k, _) :: rest, key => (if k = key then 1 else 0) + keyCount rest key

/-- JavaScript truthiness: undefined, null, false, 0 and the empty string are
falsy; every other value of the model is truthy. -/
def truthy : JValue → Bool
  | .undef => false
  | .null => false
  | .bool b => b
  | .num n => n != 0
  | .str s => s != ""
  | .arr _ => true
  | .obj _ => true

/-- Guarded JavaScript member access `v.key` (also optional chaining
`v?.key`): field lookup on objects, `undef` on every non-object.  This is the
total variant, used where the source code has already ruled out null and
undefined bases (the keys the script reads are never array properties). -/
def dot : JValue → String → JValue
  | .obj fields, key => lookupField fields key
  | _, _ => (.undef)

/-- Unguarded JavaScript member access `v.key`: throws a TypeError when the
base is null or undefined, otherwise behaves like `dot`. -/
def jsDotE (v : JValue) (key : String) : Except Unit JValue :=
  match v with
  | .undef => .error ()
  | .null => .error ()
  | .obj fields => .ok (lookupField fields key)
  | _ => .ok (.undef)

/-- The JavaScript `key in v` operator: key-presence test on objects, false on
arrays (for the non-index keys the script uses), and a TypeError on every
primitive. -/
def jsIn (key : String) (v : JValue) : Except Unit Bool :=
  match v with
  | .obj fields => .ok (hasField fields key)
  | .arr _ => .ok false
  | _ => .error ()

/-- The value of the JavaScript expression `a || b`. -/
def jsOr (a b : JValue) : JValue := if truthy a then a else b

/-- `Array.isArray`. -/
def isArrB : JValue → Bool
  | .arr _ => true
  | _ => false

/-- Key presence on an arbitrary value: true only for objects that bind the
key. -/
def hasFieldJ (v : JValue) (key : String) : Bool :=
  match v with
  | .obj fields => hasField fields key
  | _ => false

/-- JavaScript `String(v)` conversion for the model: arrays stringify as the
comma-join of their elements with null and undefined elements rendered empty,
plain objects as the usual `[object Object]` tag. -/
def toJSString : JValue → String
  | .undef => "undefined"
  | .null => "null"
  | .bool b => if b then "true" else "false"
  | .num n => toString n
  | .str s => s
  | .obj _ => "[object Object]"
  | .arr xs =>
    String.intercalate "," (xs.attach.map (fun a =>
      match a with
      | ⟨.undef, _⟩ => ""
      | ⟨.null, _⟩ => ""
      | ⟨v, _⟩ => toJSString v))
termination_by v => sizeOf v
decreasing_by
  have hlt := List.sizeOf_lt_of_mem (show v ∈ xs by assumption)
  simp only [JValue.arr.sizeOf_spec]
  omega

/-- The filter predicate of the `options` case,
`o => o && (value in o) && o.value !== undefined`, applied along the list;
a truthy primitive entry makes the `in` operator throw. -/
def filterValidValue : List JValue → Except Unit (List JValue)
  | [] => .ok []
  | o :: rest =>
    if truthy o = false then filterValidValue rest
    else
      match jsIn "value" o with
      | .error e => .error e
      | .ok true =>
        if isUndef (dot o "value") then filterValidValue rest
        else
          match filterValidValue rest with
          | .error e => .error e
          | .ok vs => .ok (o :: vs)
      | .ok false => filterValidValue rest

/-- The filter predicate of the `multiOptions` case,
`o => o && (value in o)` — note the absence of the `!== undefined` test. -/
def filterHasValue : List JValue → Except Unit (List JValue)
  | [] => .ok []
  | o :: rest =>
    if truthy o = false then filterHasValue rest
    else
      match jsIn "value" o with
      | .error e => .error e
      | .ok true =>
        match filterHasValue rest with
        | .error e => .error e
        | .ok vs => .ok (o :: vs)
      | .ok false => filterHasValue rest

/-- `prop.modes.map(m => m.name)` of the resourceLocator case: unguarded
member access, so a null or undefined mode entry throws. -/
def mapModeNames : List JValue → Except Unit (List JValue)
  | [] => .ok []
  | m :: rest =>
    match jsDotE m "name" with
    | .error e => .error e
    | .ok n =>
      match mapModeNames rest with
      | .error e => .error e
      | .ok ns => .ok (n :: ns)

/-- `prop.modes.map(m => ({name: m.name, displayName: m.displayName,
type: m.type}))` of the resourceLocator case. -/
def mapXModes : List JValue → Except Unit (List JValue)
  | [] => .ok []
  | m :: rest =>
    match jsDotE m "name" with
    | .error e => .error e
    | .ok n =>
      match mapXModes rest with
      | .error e => .error e
      | .ok xs =>
        .ok (.obj [("name", n), ("displayName", dot m "displayName"),
                   ("type", dot m "type")] :: xs)

/-- The common fields propToSchema writes into the fragment before the
type-specific switch: x-title, description, default, x-displayOptions and
x-required, each under its source condition. -/
def baseSchema (fields : List (String × JValue)) : List (String × JValue) :=
  let s : List (String × JValue) := []
  let s := if truthy (lookupField fields "displayName") then
      setField s "x-title" (lookupField fields "displayName") else s
  let s := if truthy (lookupField fields "description") then
      setField s "description" (lookupField fields "description") else s
  let s := if !isUndef (lookupField fields "default") then
      setField s "default" (lookupField fields "default") else s
  let s := if truthy (lookupField fields "displayOptions") then
      setField s "x-displayOptions" (lookupField fields "displayOptions") else s
  let s := if truthy (lookupField fields "required") then
      setField s "x-required" (.bool true) else s
  s

/-- The own-property list of an object, empty for every other value (only
used where the value is known to be an object). -/
def objFields : JValue → List (String × JValue)
  | .obj fields => fields
  | _ => []

/-- The type tags the switch of propToSchema handles explicitly (including
`notice`, which is absorbed by the entry guard). -/
def recognizedType (t : JValue) : Bool :=
  eqStr t "string" || eqStr t "hidden" || eqStr t "number" ||
  eqStr t "boolean" || eqStr t "options" || eqStr t "multiOptions" ||
  eqStr t "collection" || eqStr t "fixedCollection" || eqStr t "json" ||
  eqStr t "dateTime" || eqStr t "color" || eqStr t "resourceLocator" ||
  eqStr t "filter" || eqStr t "credentialsSelect" ||
  eqStr t "assignmentCollection" || eqStr t "notice"

mutual

/-- Embedding of `propToSchema(prop)`: null (here `none`) exactly when the
guard `!prop || !prop.name || prop.type === notice` fires, otherwise the
fragment built by the switch; `error` models a thrown TypeError. -/
def propToSchema (prop : JValue) : Except Unit (Option JValue) :=
  if !truthy prop || !truthy (dot prop "name") ||
      eqStr (dot prop "type") "notice" then
    .ok none
  else
    match propFragment (objFields prop) with
    | .error e => .error e
    | .ok s => .ok (some (.obj s))
termination_by sizeOf prop
decreasing_by
  cases prop with
  | obj fields => simp only [objFields, JValue.obj.sizeOf_spec]; omega
  | undef => simp [dot, truthy] at *
  | null => simp [dot, truthy] at *
  | bool b => simp [dot, truthy] at *
  | num n => simp [dot, truthy] at *
  | str s2 => simp [dot, truthy] at *
  | arr l => simp [dot, truthy] at *

/-- The body of propToSchema past the guard: the common fields followed by the
switch on `prop.type`. -/
def propFragment (fields : List (String × JValue)) :
    Except Unit (List (String × JValue)) :=
  let s := baseSchema fields
  let t := lookupField fields "type"
  if eqStr t "string" || eqStr t "hidden" then
    let s := setField s "type" (.str "string")
    let tOpts := lookupField fields "typeOptions"
    let s := if truthy (dot tOpts "password") then
        setField s "format" (.str "password") else s
    let s := if truthy (dot tOpts "rows") then
        setField s "x-rows" (dot tOpts "rows") else s
    let s := if truthy (dot tOpts "editor") then
        setField s "x-editor" (dot tOpts "editor") else s
    .ok s
  else if eqStr t "number" then
    let s := setField s "type" (.str "number")
    let tOpts := lookupField fields "typeOptions"
    let s := if !isUndef (dot tOpts "minValue") then
        setField s "minimum" (dot tOpts "minValue") else s
    let s := if !isUndef (dot tOpts "maxValue") then
        setField s "maximum" (dot tOpts "maxValue") else s
    let s := if !isUndef (dot tOpts "numberPrecision") then
        setField s "x-precision" (dot tOpts "numberPrecision") else s
    let s := if !isUndef (dot tOpts "numberStepSize") then
        setField s "x-stepSize" (dot tOpts "numberStepSize") else s
    .ok s
  else if eqStr t "boolean" then
    .ok (setField s "type" (.str "boolean"))
  else if eqStr t "options" then
    let s := setField s "type" (.str "string")
    match lookupField fields "options" with
    | .arr os =>
      match filterValidValue os with
      | .error e => .error e
      | .ok vos =>
        let s := setField s "enum" (.arr (vos.map (fun o => dot o "value")))
        let s := setField s "x-enumNames" (.arr (vos.map (fun o =>
            jsOr (dot o "name") (.str (toJSString (dot o "value"))))))
        let descs := vos.map (fun o => jsOr (dot o "description") (.str ""))
        let s := if descs.any truthy then
            setField s "x-enumDescriptions" (.arr descs) else s
        .ok s
    | _ => .ok s
  else if eqStr t "multiOptions" then
    let s := setField s "type" (.str "array")
    match lookupField fields "options" with
    | .arr os =>
      match filterHasValue os with
      | .error e => .error e
      | .ok vos =>
        let s := setField s "items" (.obj [("type", .str "string"),
            ("enum", .arr (vos.map (fun o => dot o "value")))])
        let s := setField s "x-enumNames" (.arr (vos.map (fun o =>
            jsOr (dot o "name") (.str (toJSString (dot o "value"))))))
        .ok s
    | _ => .ok (setField s "items" (.obj [("type", .str "string")]))
  else if eqStr t "collection" then
    let s := setField s "type" (.str "object")
    match h : lookupField fields "options" with
    | .arr subs =>
      match convertSubList [] subs with
      | .error e => .error e
      | .ok props => .ok (setField s "properties" (.obj props))
    | _ => .ok s
  else if eqStr t "fixedCollection" then
    let s := setField s "type" (.str "object")
    let s := setField s "properties" (.obj [])
    match h : lookupField fields "options" with
    | .arr groups =>
      let tOpts := lookupField fields "typeOptions"
      let multi := truthy tOpts && truthy (dot tOpts "multipleValues")
      match convertGroupList multi [] groups with
      | .error e => .error e
      | .ok gprops => .ok (setField s "properties" (.obj gprops))
    | _ => .ok s
  else if eqStr t "json" then
    .ok (setField s "oneOf" (.arr [
      .obj [("type", .str "string"), ("description", .str "JSON string")],
      .obj [("type", .str "object")],
      .obj [("type", .str "array")]]))
  else if eqStr t "dateTime" then
    .ok (setField (setField s "type" (.str "string")) "format"
      (.str "date-time"))
  else if eqStr t "color" then
    let s := setField s "type" (.str "string")
    let s := setField s "pattern" (.str "^#[0-9a-fA-F]{6}([0-9a-fA-F]{2})?$")
    .ok (setField s "x-format" (.str "color"))
  else if eqStr t "resourceLocator" then
    let s := setField s "type" (.str "object")
    let modesV := lookupField fields "modes"
    let modeValuesE : Except Unit (List JValue) :=
      match modesV with
      | .arr ms =>
        match mapModeNames ms with
        | .error e => .error e
        | .ok ns => .ok (ns.filter truthy)
      | _ => .ok [.str "id", .str "url", .str "list"]
    match modeValuesE with
    | .error e => .error e
    | .ok modeValues =>
      let s := setField s "properties" (.obj [
        ("__rl", .obj [("type", .str "boolean"), ("const", .bool true)]),
        ("mode", .obj [("type", .str "string"), ("enum", .arr modeValues)]),
        ("value", .obj [("type", .str "string")])])
      let s := setField s "required" (.arr [.str "mode", .str "value"])
      match modesV with
      | .arr ms =>
        match mapXModes ms with
        | .error e => .error e
        | .ok xs => .ok (setField s "x-modes" (.arr xs))
      | _ => .ok s
  else if eqStr t "filter" then
    let s := setField s "type" (.str "object")
    .ok (setField s "properties" (.obj [
      ("conditions", .obj [("type", .str "array"),
        ("items", .obj [("type", .str "object"), ("properties", .obj [
          ("leftValue", .obj [("type", .str "string")]),
          ("rightValue", .obj []),
          ("operator", .obj [("type", .str "object")])])])]),
      ("combinator", .obj [("type", .str "string"),
        ("enum", .arr [.str "and", .str "or"]), ("default", .str "and")]),
      ("options", .obj [("type", .str "object"), ("properties", .obj [
        ("caseSensitive", .obj [("type", .str "boolean")]),
        ("leftValue", .obj [("type", .str "string")]),
        ("typeValidation", .obj [("type", .str "string")])])])]))
  else if eqStr t "credentialsSelect" then
    let s := setField s "type" (.str "object")
    .ok (setField s "properties" (.obj [
      ("credsType", .obj [("type", .str "string")]),
      ("nodeCredentialType", .obj [("type", .str "string")])]))
  else if eqStr t "assignmentCollection" then
    let s := setField s "type" (.str "object")
    .ok (setField s "properties" (.obj [
      ("assignments", .obj [("type", .str "array"), ("items", .obj [
        ("type", .str "object"),
        ("properties", .obj [
          ("id", .obj [("type", .str "string")]),
          ("name", .obj [("type", .str "string")]),
          ("value", .obj []),
          ("type", .obj [("type", .str "string"),
            ("enum", .arr [.str "string", .str "number", .str "boolean",
                           .str "object", .str "array"])])]),
        ("required", .arr [.str "name"])])])]))
  else
    .ok (setField (setField s "type" (.str "string")) "x-n8n-type" t)
termination_by sizeOf fields
decreasing_by
  all_goals
    (have key : ∀ (fs : List (String × JValue)) (k : String)
          (xs : List JValue),
        lookupField fs k = JValue.arr xs → sizeOf xs < sizeOf fs := by
      intro fs k xs hx
      induction fs with
      | nil => simp [lookupField] at hx
      | cons p rest ih =>
        obtain ⟨k1, v1⟩ := p
        by_cases hk : k1 = k
        · rw [lookupField, if_pos hk] at hx
          subst hx
          simp only [List.cons.sizeOf_spec, Prod.mk.sizeOf_spec,
            JValue.arr.sizeOf_spec]
          omega
        · rw [lookupField, if_neg hk] at hx
          have := ih hx
          simp only [List.cons.sizeOf_spec, Prod.mk.sizeOf_spec]
          omega
     exact key _ _ _ h)

/-- The shared per-property loop: used by the collection case of propToSchema
(over `prop.options`), by the fixedCollection case (over each group's
`values`), and by descToSchema (over `desc.properties`): skip falsy entries
and entries with a falsy name, convert, skip null contributions, and insert
the fragment under the stringified name (last write wins). -/
def convertSubList (acc : List (String × JValue)) (subs : List JValue) :
    Except Unit (List (String × JValue)) :=
  match subs with
  | [] => .ok acc
  | sub :: rest =>
    if truthy sub = false ∨ truthy (dot sub "name") = false then
      convertSubList acc rest
    else
      match propToSchema sub with
      | .error e => .error e
      | .ok none => convertSubList acc rest
      | .ok (some frag) =>
        convertSubList (setField acc (toJSString (dot sub "name")) frag) rest
termination_by sizeOf subs
decreasing_by
  all_goals (simp only [List.cons.sizeOf_spec]; omega)

/-- The group loop of the fixedCollection case: each named group becomes an
array-of-object schema when the multipleValues tuning flag is set, a plain
object schema otherwise, with its item properties recursively converted from
the group's `values` list. -/
def convertGroupList (multi : Bool) (acc : List (String × JValue))
    (groups : List JValue) : Except Unit (List (String × JValue)) :=
  match groups with
  | [] => .ok acc
  | group :: rest =>
    if truthy group = false ∨ truthy (dot group "name") = false then
      convertGroupList multi acc rest
    else
      let gs : List (String × JValue) := []
      let gs := if truthy (dot group "displayName") then
          setField gs "x-title" (dot group "displayName") else gs
      let gs := if truthy (dot group "description") then
          setField gs "description" (dot group "description") else gs
      match h : dot group "values" with
      | .arr vals =>
        match convertSubList [] vals with
        | .error e => .error e
        | .ok itemProps =>
          let gs := if multi then
              setField (setField gs "type" (.str "array")) "items"
                (.obj [("type", .str "object"), ("properties", .obj itemProps)])
            else
              setField (setField gs "type" (.str "object")) "properties"
                (.obj itemProps)
          convertGroupList multi
            (setField acc (toJSString (dot group "name")) (.obj gs)) rest
      | _ =>
        let gs := if multi then
            setField (setField gs "type" (.str "array")) "items"
              (.obj [("type", .str "object"), ("properties", .obj [])])
          else
            setField (setField gs "type" (.str "object")) "properties"
              (.obj [])
        convertGroupList multi
          (setField acc (toJSString (dot group "name")) (.obj gs)) rest
termination_by sizeOf groups
decreasing_by
  all_goals
    first
    | (simp only [List.cons.sizeOf_spec]; omega)
    | (have key : ∀ (g : JValue) (k : String) (xs : List JValue),
          dot g k = JValue.arr xs → sizeOf xs < sizeOf g := by
        intro g k xs hx
        cases g with
        | obj fs =>
          have key2 : ∀ (fs2 : List (String × JValue)),
              lookupField fs2 k = JValue.arr xs → sizeOf xs < sizeOf fs2 := by
            intro fs2 hx2
            induction fs2 with
            | nil => simp [lookupField] at hx2
            | cons p rest2 ih =>
              obtain ⟨k1, v1⟩ := p
              by_cases hk : k1 = k
              · rw [lookupField, if_pos hk] at hx2
                subst hx2
                simp only [List.cons.sizeOf_spec, Prod.mk.sizeOf_spec,
                  JValue.arr.sizeOf_spec]
                omega
              · rw [lookupField, if_neg hk] at hx2
                have := ih hx2
                simp only [List.cons.sizeOf_spec, Prod.mk.sizeOf_spec]
                omega
          have := key2 fs (by simpa [dot] using hx)
          simp only [JValue.obj.sizeOf_spec]
          omega
        | undef => simp [dot] at hx
        | null => simp [dot] at hx
        | bool b => simp [dot] at hx
        | num n => simp [dot] at hx
        | str s2 => simp [dot] at hx
        | arr l => simp [dot] at hx
       have hlt := key _ _ _ h
       simp only [List.cons.sizeOf_spec]
       omega)

end

/-- What `for (const prop of X)` iterates over: the elements of an array, the
one-character strings of a string, and a TypeError on every other (truthy)
non-iterable value. -/
def forOfProps (v : JValue) : Except Unit (List JValue) :=
  match v with
  | .arr xs => .ok xs
  | .str s => .ok (s.toList.map (fun c => JValue.str c.toString))
  | _ => .error ()

/-- Embedding of `descToSchema(desc, versionLabel)`: the fixed top-level
metadata fields, the conditional vendor passthrough fields, then the property
loop of the description inserted under the `properties` key. -/
def descToSchema (desc versionLabel : JValue) : Except Unit JValue :=
  match desc with
  | .undef => .error ()
  | .null => .error ()
  | _ =>
    let schema : List (String × JValue) := [
      ("$schema", .str "http://json-schema.org/draft-07/schema#"),
      ("title", jsOr (dot desc "displayName") (dot desc "name")),
      ("description", jsOr (dot desc "description") (.str "")),
      ("x-n8n-node-type", dot desc "name"),
      ("x-n8n-version",
        if !isUndef versionLabel then versionLabel
        else jsOr (dot desc "version") (.num 1)),
      ("x-n8n-group",
        match dot desc "group" with
        | .arr gs => .arr gs
        | g => .arr (if truthy g then [g] else [])),
      ("type", .str "object"),
      ("properties", .obj [])]
    let schema := if truthy (dot desc "subtitle") then
        setField schema "x-subtitle" (dot desc "subtitle") else schema
    let schema := if truthy (dot desc "icon") then
        setField schema "x-icon" (dot desc "icon") else schema
    let schema := if truthy (dot desc "inputs") then
        setField schema "x-inputs" (dot desc "inputs") else schema
    let schema := if truthy (dot desc "outputs") then
        setField schema "x-outputs" (dot desc "outputs") else schema
    let schema := if truthy (dot desc "credentials") then
        setField schema "x-credentials" (dot desc "credentials") else schema
    let schema := if truthy (dot desc "webhooks") then
        setField schema "x-webhooks" (.str "true") else schema
    match forOfProps (jsOr (dot desc "properties") (.arr [])) with
    | .error e => .error e
    | .ok props =>
      match convertSubList [] props with
      | .error e => .error e
      | .ok m => .ok (.obj (setField schema "properties" (.obj m)))

/-- Whether a property definition contributes to the output mapping under the
key `k`: it is truthy, has a truthy name whose string form is `k`, and its
conversion yields a fragment. -/
def contribAs (k : String) (p : JValue) : Bool :=
  truthy p && truthy (dot p "name") && (toJSString (dot p "name") == k) &&
    (match propToSchema p with
     | .ok (some _) => true
     | _ => false)

/-- The fragment of the last property definition of the list that contributes
under the key `k`, `undef` when none does — the expected content of the
output `properties` mapping under last-write-wins. -/
def lastFragment (props : List JValue) (k : String) : JValue :=
  match props.reverse.find? (contribAs k) with
  | some p =>
    match propToSchema p with
    | .ok (some f) => f
    | _ => (.undef)
  | none => (.undef)

/-- The characters removed by the first replace of safeName:
`<>:"/\|?*` and the control range x00–x1f. -/
def forbiddenChar (c : Char) : Bool :=
  c == '<' || c == '>' || c == ':' || c == '"' || c == '/' || c == '\\' ||
  c == '|' || c == '?' || c == '*' || c.toNat ≤ 31

/-- The JavaScript regular-expression class `\s` (also the set trimmed by
`String.prototype.trim`): ASCII whitespace, NBSP, the Unicode space
separators, the line separators and the BOM. -/
def jsWsChar (c : Char) : Bool :=
  c.toNat == 9 || c.toNat == 10 || c.toNat == 11 || c.toNat == 12 ||
  c.toNat == 13 || c.toNat == 32 || c.toNat == 160 || c.toNat == 5760 ||
  (8192 ≤ c.toNat && c.toNat ≤ 8202) || c.toNat == 8232 ||
  c.toNat == 8233 || c.toNat == 8239 || c.toNat == 8287 ||
  c.toNat == 12288 || c.toNat == 65279

/-- `replace(/\s+/g, "_")`: every maximal run of whitespace becomes a single
underscore. -/
def collapseWs : List Char → List Char
  | [] => []
  | [c] => if jsWsChar c then ['_'] else [c]
  | c :: d :: rest =>
    if jsWsChar c && jsWsChar d then collapseWs (d :: rest)
    else (if jsWsChar c then '_' else c) :: collapseWs (d :: rest)

/-- `replace(/_{2,}/g, "_")`: every run of two or more underscores becomes a
single underscore. -/
def collapseUnd : List Char → List Char
  | [] => []
  | [c] => [c]
  | c :: d :: rest =>
    if c == '_' && d == '_' then collapseUnd (d :: rest)
    else c :: collapseUnd (d :: rest)

/-- No two adjacent underscores anywhere in the list. -/
def noDouble : List Char → Bool
  | [] => true
  | [_] => true
  | c :: d :: rest => !(c == '_' && d == '_') && noDouble (d :: rest)

/-- Whether an optional preceding character may sit next to `a` without
forming a double underscore. -/
def pairOK (o : Option Char) (a : Char) : Bool :=
  match o with
  | some b => !(b == '_' && a == '_')
  | none => true

/-- Removing a trailing run of characters matching `p` (as the `_+$`
alternative of the regex, and the right half of `trim`, do). -/
def dropTrail (p : Char → Bool) (l : List Char) : List Char :=
  (l.reverse.dropWhile p).reverse

/-- Embedding of `safeName(str)`: stringify with an `unknown` fallback, delete
path-forbidden and control characters, collapse whitespace runs to single
underscores, collapse underscore runs, strip edge underscores, trim, and fall
back to `unknown` when the result is empty. -/
def safeName (v : JValue) : String :=
  let s0 := (toJSString (jsOr v (.str "unknown"))).toList
  let s1 := s0.filter (fun c => !forbiddenChar c)
  let s2 := collapseWs s1
  let s3 := collapseUnd s2
  let s4 := dropTrail (fun c => c == '_') (s3.dropWhile (fun c => c == '_'))
  let s5 := dropTrail jsWsChar (s4.dropWhile jsWsChar)
  if s5 = [] then "unknown" else String.mk s5

/-- A property definition with a name and a recognized type whose options
array contains a truthy primitive entry. -/
def primitiveOptionProp : JValue :=
  .obj [("name", .str "x"), ("type", .str "options"),
        ("options", .arr [.num 1])]

/-- A multiOptions property definition whose single options entry binds the
value key to undefined. -/
def undefinedValueProp : JValue :=
  .obj [("name", .str "m"), ("type", .str "multiOptions"),
        ("options", .arr [.obj [("value", .undef)]])]

/-- A resourceLocator property definition declaring a single mode that has no
name. -/
def unnamedModeProp : JValue :=
  .obj [("name", .str "r"), ("type", .str "resourceLocator"),
        ("modes", .arr [.obj []])]

/-- The options scenario of the specification: two choices, the second with a
description. -/
def modeOptionsProp : JValue :=
  .obj [("name", .str "mode"), ("type", .str "options"),
        ("options", .arr [
          .obj [("name", .str "Fast"), ("value", .str "fast")],
          .obj [("name", .str "Slow"), ("value", .str "slow"),
                ("description", .str "x")]])]

/-- A node description with one nameless property and two properties that
share the name a. -/
def dupNameDesc : JValue :=
  .obj [("name", .str "n"), ("properties", .arr [
    .obj [("type", .str "boolean")],
    .obj [("name", .str "a"), ("type", .str "boolean")],
    .obj [("name", .str "a"), ("type", .str "number")]])]

/-! ### Structural lemmas about the object model -/

theorem eqStr_true_iff (v : JValue) (s : String) :
    eqStr v s = true ↔ v = .str s := by
  cases v <;> simp [eqStr]

theorem isUndef_true_iff (v : JValue) : isUndef v = true ↔ v = .undef := by
  cases v <;> simp [isUndef]

theorem lookupField_setField (s : List (String × JValue)) (k : String)
    (v : JValue) (key : String) :
    lookupField (setField s k v) key =
      if k = key then v else lookupField s key := by
  induction s with
  | nil => simp [setField, lookupField]
  | cons p rest ih =>
    obtain ⟨k1, w⟩ := p
    by_cases hk : k1 = k
    · subst hk
      by_cases hkey : k1 = key <;> simp [setField, lookupField, hkey]
    · by_cases hkey : k1 = key
      · subst hkey
        simp [setField, lookupField, hk, Ne.symm hk]
      · simp [setField, lookupField, hk, hkey, ih]

theorem hasField_setField (s : List (String × JValue)) (k : String)
    (v : JValue) (key : String) :
    hasField (setField s k v) key = (k == key || hasField s key) := by
  induction s with
  | nil => simp [setField, hasField]
  | cons p rest ih =>
    obtain ⟨k1, w⟩ := p
    by_cases hk : k1 = k
    · subst hk
      simp [setField, hasField]
    · simp only [setField, if_neg hk, hasField, ih]
      cases h1 : (k1 == key) <;> simp

theorem keyCount_setField (s : List (String × JValue)) (k : String)
    (v : JValue) (key : String) :
    keyCount (setField s k v) key =
      if k = key then max 1 (keyCount s key) else keyCount s key := by
  induction s with
  | nil =>
    by_cases hk : k = key <;> simp [setField, keyCount, hk]
  | cons p rest ih =>
    obtain ⟨k1, w⟩ := p
    by_cases hk : k1 = k
    · subst hk
      by_cases hkey : k1 = key
      · subst hkey
        simp [setField, keyCount]
      · simp [setField, keyCount, hkey]
    · simp only [setField, if_neg hk, keyCount, ih]
      by_cases hkey : k = key
      · simp only [if_pos hkey]
        have hk1 : k1 ≠ key := fun h => hk (h.trans hkey.symm)
        simp [hk1]
      · simp [hkey]

theorem baseSchema_hasField (fields : List (String × JValue)) (key : String)
    (h1 : key ≠ "x-title") (h2 : key ≠ "description") (h3 : key ≠ "default")
    (h4 : key ≠ "x-displayOptions") (h5 : key ≠ "x-required") :
    hasField (baseSchema fields) key = false := by
  simp only [baseSchema]
  split <;> split <;> split <;> split <;> split <;>
    simp [hasField_setField, hasField, Ne.symm h1, Ne.symm h2, Ne.symm h3,
      Ne.symm h4, Ne.symm h5]

theorem baseSchema_keyCount (fields : List (String × JValue)) (key : String)
    (h1 : key ≠ "x-title") (h2 : key ≠ "description") (h3 : key ≠ "default")
    (h4 : key ≠ "x-displayOptions") (h5 : key ≠ "x-required") :
    keyCount (baseSchema fields) key = 0 := by
  simp only [baseSchema]
  split <;> split <;> split <;> split <;> split <;>
    simp [keyCount_setField, keyCount, Ne.symm h1, Ne.symm h2, Ne.symm h3,
      Ne.symm h4, Ne.symm h5]

theorem baseSchema_lookupField (fields : List (String × JValue)) (key : String)
    (h1 : key ≠ "x-title") (h2 : key ≠ "description") (h3 : key ≠ "default")
    (h4 : key ≠ "x-displayOptions") (h5 : key ≠ "x-required") :
    lookupField (baseSchema fields) key = .undef := by
  simp only [baseSchema]
  split <;> split <;> split <;> split <;> split <;>
    simp [lookupField_setField, lookupField, Ne.symm h1, Ne.symm h2,
      Ne.symm h3, Ne.symm h4, Ne.symm h5]

theorem isUndef_false_iff (v : JValue) : isUndef v = false ↔ v ≠ .undef := by
  cases v <;> simp [isUndef]

theorem keyCount_ite (c : Prop) [Decidable c] (a b : List (String × JValue))
    (key : String) :
    keyCount (if c then a else b) key =
      if c then keyCount a key else keyCount b key := by
  split <;> rfl

theorem lookupField_ite (c : Prop) [Decidable c] (a b : List (String × JValue))
    (key : String) :
    lookupField (if c then a else b) key =
      if c then lookupField a key else lookupField b key := by
  split <;> rfl

theorem hasField_ite (c : Prop) [Decidable c] (a b : List (String × JValue))
    (key : String) :
    hasField (if c then a else b) key =
      if c then hasField a key else hasField b key := by
  split <;> rfl

/-- Running propToSchema on an object that passes the guard comes down to
running the switch body. -/
theorem propToSchema_obj_run (fields : List (String × JValue))
    (hname : truthy (lookupField fields "name") = true)
    (hnotice : eqStr (lookupField fields "type") "notice" = false) :
    propToSchema (.obj fields) =
      match propFragment fields with
      | .error e => .error e
      | .ok s => .ok (some (.obj s)) := by
  rw [propToSchema]
  have hguard : (!truthy (JValue.obj fields) ||
      !truthy (dot (JValue.obj fields) "name") ||
      eqStr (dot (JValue.obj fields) "type") "notice") = false := by
    simp only [dot]
    rw [hname, hnotice]
    rfl
  rw [hguard]
  simp [objFields]

/-! ### C9: the number round-trip scenario -/

/-- C9: the definition {name: timeout, type: number, typeOptions:
{minValue: 0, maxValue: 300}} converts to a fragment structurally equal to
{type: number, minimum: 0, maximum: 300} with no other keys. -/
theorem number_minmax_roundtrip :
    propToSchema (.obj [("name", .str "timeout"), ("type", .str "number"),
      ("typeOptions", .obj [("minValue", .num 0), ("maxValue", .num 300)])]) =
    .ok (some (.obj [("type", .str "number"), ("minimum", .num 0),
      ("maximum", .num 300)])) := by
  simp [propToSchema, propFragment, baseSchema, lookupField, truthy, dot,
    setField, eqStr, isUndef, objFields]

/-! ### C1: when conversion yields no contribution, and whether it can throw -/

/-- C1 counterexample: this definition has a truthy name and a type other
than notice, yet propToSchema neither returns a fragment nor returns no
contribution — it throws a TypeError, because the filter of the options case
evaluates `value in o` on the truthy primitive entry 1. -/
theorem propToSchema_throws_on_primitive_option :
    propToSchema primitiveOptionProp = .error () ∧
    truthy (dot primitiveOptionProp "name") = true ∧
    dot primitiveOptionProp "type" ≠ .str "notice" := by
  refine ⟨?_, by simp [primitiveOptionProp, dot, lookupField, truthy],
    by simp [primitiveOptionProp, dot, lookupField]⟩
  simp [primitiveOptionProp, propToSchema, propFragment, baseSchema,
    lookupField, truthy, dot, setField, eqStr, isUndef, filterValidValue,
    jsIn, objFields]

/-- C1 (amended): propToSchema returns no contribution exactly when the input
is falsy, lacks a truthy name, or has type notice; on every other input it
never returns no contribution — it returns a Schema Fragment unless a
TypeError is thrown, which is possible (see the counterexample). -/
theorem propToSchema_none_iff (prop : JValue) :
    propToSchema prop = .ok none ↔
      (truthy prop = false ∨ truthy (dot prop "name") = false ∨
       dot prop "type" = .str "notice") := by
  rw [propToSchema]
  by_cases hg : (!truthy prop || !truthy (dot prop "name") ||
      eqStr (dot prop "type") "notice") = true
  · rw [if_pos hg]
    simp only [Bool.or_eq_true, Bool.not_eq_true', eqStr_true_iff] at hg
    constructor
    · intro _
      tauto
    · intro _
      rfl
  · rw [if_neg hg]
    have hg2 : ¬(truthy prop = false ∨ truthy (dot prop "name") = false ∨
        dot prop "type" = .str "notice") := by
      intro hc
      apply hg
      rcases hc with h | h | h <;> simp [h, eqStr_true_iff]
    cases hf : propFragment (objFields prop) with
    | error e => simp [hf, hg2]
    | ok s => simp [hf, hg2]

/-! ### C7: unrecognized type tags degrade to string fragments -/

/-- C7: a property definition with a truthy name whose type tag lies outside
the recognized set converts without failure to a string-typed fragment that
carries the original tag unchanged under the vendor key x-n8n-type. -/
theorem unknown_type_degrades_to_string (fields : List (String × JValue))
    (hname : truthy (lookupField fields "name") = true)
    (hrec : recognizedType (lookupField fields "type") = false) :
    ∃ fs, propToSchema (.obj fields) = .ok (some (.obj fs)) ∧
      lookupField fs "type" = .str "string" ∧
      lookupField fs "x-n8n-type" = lookupField fields "type" := by
  simp only [recognizedType, Bool.or_eq_false_iff, and_assoc] at hrec
  obtain ⟨h1, h2, h3, h4, h5, h6, h7, h8, h9, h10, h11, h12, h13, h14,
    h15, h16⟩ := hrec
  have hfrag : propFragment fields = .ok (setField (setField
      (baseSchema fields) "type" (.str "string")) "x-n8n-type"
      (lookupField fields "type")) := by
    rw [propFragment]
    simp [h1, h2, h3, h4, h5, h6, h7, h8, h9, h10, h11, h12, h13, h14, h15]
  refine ⟨setField (setField (baseSchema fields) "type" (.str "string"))
    "x-n8n-type" (lookupField fields "type"), ?_, ?_, ?_⟩
  · rw [propToSchema]
    have hguard : (!truthy (JValue.obj fields) ||
        !truthy (dot (JValue.obj fields) "name") ||
        eqStr (dot (JValue.obj fields) "type") "notice") = false := by
      simp only [dot]
      rw [hname, h16]
      rfl
    rw [hguard]
    simp [hfrag, objFields]
  · simp [lookupField_setField]
  · simp [lookupField_setField]

/-! ### C3: the options case -/

/-- The fragment body produced by the options case when the property passes
the guard, its type is options and the filter succeeds. -/
theorem propFragment_options (fields : List (String × JValue))
    (os vos : List JValue)
    (htype : lookupField fields "type" = .str "options")
    (hopts : lookupField fields "options" = .arr os)
    (hfilter : filterValidValue os = .ok vos) :
    propFragment fields = .ok (
      if (vos.map (fun o => jsOr (dot o "description") (.str ""))).any truthy
      then
        setField (setField (setField (setField (baseSchema fields) "type"
          (.str "string")) "enum" (.arr (vos.map (fun o => dot o "value"))))
          "x-enumNames" (.arr (vos.map (fun o =>
            jsOr (dot o "name") (.str (toJSString (dot o "value")))))))
          "x-enumDescriptions"
          (.arr (vos.map (fun o => jsOr (dot o "description") (.str ""))))
      else
        setField (setField (setField (baseSchema fields) "type"
          (.str "string")) "enum" (.arr (vos.map (fun o => dot o "value"))))
          "x-enumNames" (.arr (vos.map (fun o =>
            jsOr (dot o "name") (.str (toJSString (dot o "value"))))))) := by
  rw [propFragment]
  simp [htype, hopts, hfilter, eqStr]

/-- C3: for an options property with an array of options, the enumeration
values, names and descriptions are built only from the entries kept by the
defined-value filter, and the x-enumDescriptions list is present exactly when
some kept entry has a truthy description (in which case it lists the
per-entry descriptions with empty-string defaults). -/
theorem options_enum_spec (fields : List (String × JValue))
    (os vos : List JValue)
    (hname : truthy (lookupField fields "name") = true)
    (htype : lookupField fields "type" = .str "options")
    (hopts : lookupField fields "options" = .arr os)
    (hfilter : filterValidValue os = .ok vos) :
    ∃ fs, propToSchema (.obj fields) = .ok (some (.obj fs)) ∧
      lookupField fs "type" = .str "string" ∧
      lookupField fs "enum" = .arr (vos.map (fun o => dot o "value")) ∧
      lookupField fs "x-enumNames" = .arr (vos.map (fun o =>
        jsOr (dot o "name") (.str (toJSString (dot o "value"))))) ∧
      hasField fs "x-enumDescriptions" =
        (vos.map (fun o => jsOr (dot o "description") (.str ""))).any truthy ∧
      ((vos.map (fun o => jsOr (dot o "description") (.str ""))).any truthy
          = true →
        lookupField fs "x-enumDescriptions" =
          .arr (vos.map (fun o => jsOr (dot o "description") (.str "")))) := by
  have hnotice : eqStr (lookupField fields "type") "notice" = false := by
    rw [htype]; rfl
  have hrun := propToSchema_obj_run fields hname hnotice
  have hfrag := propFragment_options fields os vos htype hopts hfilter
  rw [hfrag] at hrun
  cases hany : (vos.map (fun o => jsOr (dot o "description") (.str ""))).any
      truthy with
  | false =>
    rw [hany] at hrun
    simp only [if_false, Bool.false_eq_true] at hrun
    refine ⟨_, hrun, ?_, ?_, ?_, ?_, ?_⟩
    · simp [lookupField_setField]
    · simp [lookupField_setField]
    · simp [lookupField_setField]
    · simp only [hasField_setField]
      simp only [baseSchema_hasField fields "x-enumDescriptions"
        (by simp) (by simp) (by simp) (by simp) (by simp)]
      rfl
    · intro hc
      simp at hc
  | true =>
    rw [hany] at hrun
    simp only [if_true] at hrun
    refine ⟨_, hrun, ?_, ?_, ?_, ?_, ?_⟩
    · simp [lookupField_setField]
    · simp [lookupField_setField]
    · simp [lookupField_setField]
    · simp [hasField_setField]
    · intro _
      simp [lookupField_setField]

/-- Witness for C3: the specification scenario {name: mode, type: options,
options: [{name: Fast, value: fast}, {name: Slow, value: slow,
description: x}]} yields enum [fast, slow], enum-names [Fast, Slow] and
enum-descriptions [empty, x]. -/
theorem options_enum_spec_witness :
    ∃ fs, propToSchema modeOptionsProp = .ok (some (.obj fs)) ∧
      lookupField fs "enum" = .arr [.str "fast", .str "slow"] ∧
      lookupField fs "x-enumNames" = .arr [.str "Fast", .str "Slow"] ∧
      lookupField fs "x-enumDescriptions" = .arr [.str "", .str "x"] := by
  obtain ⟨fs, hrun, -, henum, hnames, -, hdesc⟩ := options_enum_spec
    [("name", .str "mode"), ("type", .str "options"),
     ("options", .arr [
       .obj [("name", .str "Fast"), ("value", .str "fast")],
       .obj [("name", .str "Slow"), ("value", .str "slow"),
             ("description", .str "x")]])]
    [.obj [("name", .str "Fast"), ("value", .str "fast")],
     .obj [("name", .str "Slow"), ("value", .str "slow"),
           ("description", .str "x")]]
    [.obj [("name", .str "Fast"), ("value", .str "fast")],
     .obj [("name", .str "Slow"), ("value", .str "slow"),
           ("description", .str "x")]]
    (by rfl) (by rfl) (by rfl)
    (by simp [filterValidValue, jsIn, hasField, truthy, dot, lookupField,
      isUndef])
  refine ⟨fs, ?_, ?_, ?_, ?_⟩
  · exact hrun
  · simpa [dot, lookupField] using henum
  · simpa [dot, lookupField, jsOr, truthy] using hnames
  · have := hdesc (by simp [dot, lookupField, jsOr, truthy])
    simpa [dot, lookupField, jsOr, truthy] using this

/-! ### C2: the multiOptions filter versus the options filter -/

/-- The two option filters agree on every list in which no entry binds the
value key to the undefined value; this is the only divergence between them. -/
theorem filters_agree (os : List JValue)
    (h : ∀ o ∈ os, hasFieldJ o "value" = true → dot o "value" ≠ .undef) :
    filterValidValue os = filterHasValue os := by
  induction os with
  | nil => rfl
  | cons o rest ih =>
    have hrest := ih (fun x hx => h x (List.mem_cons_of_mem _ hx))
    rw [filterValidValue, filterHasValue]
    by_cases ht : truthy o = false
    · simp [ht, hrest]
    · simp only [ht, if_false]
      cases hin : jsIn "value" o with
      | error e => rfl
      | ok b =>
        cases b with
        | false => simp [hrest]
        | true =>
          have hky : hasFieldJ o "value" = true := by
            cases o <;> simp [jsIn, hasFieldJ] at hin ⊢ <;> exact hin
          have hne := h o (List.mem_cons_self o rest) hky
          have hu : isUndef (dot o "value") = false :=
            (isUndef_false_iff _).mpr hne
          simp [hu, hrest]

/-- C2 counterexample: a multiOptions definition keeps an options entry whose
value key is present but bound to undefined — the entry appears in the items
enumeration and in the enum-names list — while the filter rule of the options
type drops exactly that entry. -/
theorem multiOptions_keeps_undefined_value_entry :
    propToSchema undefinedValueProp =
      .ok (some (.obj [("type", .str "array"),
        ("items", .obj [("type", .str "string"), ("enum", .arr [(.undef)])]),
        ("x-enumNames", .arr [.str "undefined"])])) ∧
    filterValidValue [.obj [("value", .undef)]] = .ok [] := by
  constructor
  · simp [undefinedValueProp, propToSchema, propFragment, baseSchema,
      lookupField, truthy, dot, setField, eqStr, isUndef, filterHasValue,
      jsIn, hasField, jsOr, toJSString, objFields]
  · simp [filterValidValue, jsIn, hasField, truthy, dot, lookupField, isUndef]

/-- The fragment body produced by the multiOptions case when the property
passes the guard, its type is multiOptions and the filter succeeds. -/
theorem propFragment_multiOptions (fields : List (String × JValue))
    (os vos : List JValue)
    (htype : lookupField fields "type" = .str "multiOptions")
    (hopts : lookupField fields "options" = .arr os)
    (hfilter : filterHasValue os = .ok vos) :
    propFragment fields = .ok (
      setField (setField (setField (baseSchema fields) "type" (.str "array"))
        "items" (.obj [("type", .str "string"),
          ("enum", .arr (vos.map (fun o => dot o "value")))]))
        "x-enumNames" (.arr (vos.map (fun o =>
          jsOr (dot o "name") (.str (toJSString (dot o "value"))))))) := by
  rw [propFragment]
  simp [htype, hopts, hfilter, eqStr]

/-- C2 (amended): the entries contributing to the items enumeration and to
the enum-names list of a multiOptions property are those kept by the filter
`o && (value in o)` — entries with the value key present but undefined are
kept, unlike under the options rule — and the two filter rules agree exactly
when no entry binds the value key to undefined. -/
theorem multiOptions_filter_spec (fields : List (String × JValue))
    (os vos : List JValue)
    (hname : truthy (lookupField fields "name") = true)
    (htype : lookupField fields "type" = .str "multiOptions")
    (hopts : lookupField fields "options" = .arr os)
    (hfilter : filterHasValue os = .ok vos) :
    ∃ fs, propToSchema (.obj fields) = .ok (some (.obj fs)) ∧
      lookupField fs "type" = .str "array" ∧
      lookupField fs "items" = .obj [("type", .str "string"),
        ("enum", .arr (vos.map (fun o => dot o "value")))] ∧
      lookupField fs "x-enumNames" = .arr (vos.map (fun o =>
        jsOr (dot o "name") (.str (toJSString (dot o "value"))))) ∧
      ((∀ o ∈ os, hasFieldJ o "value" = true → dot o "value" ≠ .undef) →
        filterValidValue os = .ok vos) := by
  have hnotice : eqStr (lookupField fields "type") "notice" = false := by
    rw [htype]; rfl
  have hrun := propToSchema_obj_run fields hname hnotice
  have hfrag := propFragment_multiOptions fields os vos htype hopts hfilter
  rw [hfrag] at hrun
  refine ⟨_, hrun, ?_, ?_, ?_, ?_⟩
  · simp [lookupField_setField]
  · simp [lookupField_setField]
  · simp [lookupField_setField]
  · intro hcond
    rw [filters_agree os hcond]
    exact hfilter

/-- Witness for C2 at a multiOptions definition with one ordinary entry. -/
theorem multiOptions_filter_spec_witness :
    ∃ fs, propToSchema (.obj [("name", .str "m"),
        ("type", .str "multiOptions"),
        ("options", .arr [.obj [("name", .str "A"), ("value", .str "a")]])]) =
      .ok (some (.obj fs)) ∧
      lookupField fs "items" = .obj [("type", .str "string"),
        ("enum", .arr [.str "a"])] ∧
      lookupField fs "x-enumNames" = .arr [.str "A"] := by
  obtain ⟨fs, hrun, -, hitems, hnames, -⟩ := multiOptions_filter_spec
    [("name", .str "m"), ("type", .str "multiOptions"),
     ("options", .arr [.obj [("name", .str "A"), ("value", .str "a")]])]
    [.obj [("name", .str "A"), ("value", .str "a")]]
    [.obj [("name", .str "A"), ("value", .str "a")]]
    (by rfl) (by rfl) (by rfl)
    (by simp [filterHasValue, jsIn, hasField, truthy])
  refine ⟨fs, hrun, ?_, ?_⟩
  · simpa [dot, lookupField] using hitems
  · simpa [dot, lookupField, jsOr, truthy] using hnames

/-! ### C6: the single type keyword / oneOf invariant -/

/-- Every successful switch body carries exactly one type keyword with a
primitive value, except the json case which carries exactly one oneOf and no
type keyword. -/
theorem propFragment_type_oneOf (fields fs : List (String × JValue))
    (h : propFragment fields = .ok fs) :
    (eqStr (lookupField fields "type") "json" = true →
      keyCount fs "type" = 0 ∧ keyCount fs "oneOf" = 1) ∧
    (eqStr (lookupField fields "type") "json" = false →
      keyCount fs "type" = 1 ∧ keyCount fs "oneOf" = 0 ∧
      lookupField fs "type" ∈ [JValue.str "string", .str "number",
        .str "boolean", .str "object", .str "array"]) := by
  rw [propFragment] at h
  by_cases c1 : (eqStr (lookupField fields "type") "string" ||
      eqStr (lookupField fields "type") "hidden") = true
  · rw [if_pos c1] at h
    have hjson : eqStr (lookupField fields "type") "json" = false := by
      rcases (Bool.or_eq_true _ _).mp c1 with h1 | h1 <;>
        (rw [eqStr_true_iff] at h1; rw [h1]; rfl)
    simp only [Except.ok.injEq] at h
    subst h
    refine ⟨fun hj => absurd hj (by simp [hjson]), fun _ => ?_⟩
    simp [keyCount_ite, lookupField_ite, keyCount_setField,
      lookupField_setField, baseSchema_keyCount, baseSchema_lookupField]
  · rw [if_neg c1] at h
    by_cases c2 : eqStr (lookupField fields "type") "number" = true
    · rw [if_pos c2] at h
      have hjson : eqStr (lookupField fields "type") "json" = false := by
        rw [eqStr_true_iff] at c2; rw [c2]; rfl
      simp only [Except.ok.injEq] at h
      subst h
      refine ⟨fun hj => absurd hj (by simp [hjson]), fun _ => ?_⟩
      simp [keyCount_ite, lookupField_ite, keyCount_setField,
        lookupField_setField, baseSchema_keyCount, baseSchema_lookupField]
    · rw [if_neg c2] at h
      by_cases c3 : eqStr (lookupField fields "type") "boolean" = true
      · rw [if_pos c3] at h
        have hjson : eqStr (lookupField fields "type") "json" = false := by
          rw [eqStr_true_iff] at c3; rw [c3]; rfl
        simp only [Except.ok.injEq] at h
        subst h
        refine ⟨fun hj => absurd hj (by simp [hjson]), fun _ => ?_⟩
        simp [keyCount_ite, lookupField_ite, keyCount_setField,
          lookupField_setField, baseSchema_keyCount, baseSchema_lookupField]
      · rw [if_neg c3] at h
        by_cases c4 : eqStr (lookupField fields "type") "options" = true
        · rw [if_pos c4] at h
          have hjson : eqStr (lookupField fields "type") "json" = false := by
            rw [eqStr_true_iff] at c4; rw [c4]; rfl
          cases ho : lookupField fields "options" <;>
            first
            | (simp only [ho] at h
               simp only [Except.ok.injEq] at h
               subst h
               refine ⟨fun hj => absurd hj (by simp [hjson]), fun _ => ?_⟩
               simp [keyCount_ite, lookupField_ite, keyCount_setField,
                 lookupField_setField, baseSchema_keyCount,
                 baseSchema_lookupField])
            | (rename_i os
               simp only [ho] at h
               cases hfv : filterValidValue os with
               | error e =>
                 simp only [hfv] at h
                 exact absurd h (by simp)
               | ok vos =>
                 simp only [hfv] at h
                 simp only [Except.ok.injEq] at h
                 subst h
                 refine ⟨fun hj => absurd hj (by simp [hjson]), fun _ => ?_⟩
                 simp [keyCount_ite, lookupField_ite, keyCount_setField,
                   lookupField_setField, baseSchema_keyCount,
                   baseSchema_lookupField])
        · rw [if_neg c4] at h
          by_cases c5 : eqStr (lookupField fields "type") "multiOptions" = true
          · rw [if_pos c5] at h
            have hjson : eqStr (lookupField fields "type") "json" = false := by
              rw [eqStr_true_iff] at c5; rw [c5]; rfl
            cases ho : lookupField fields "options" <;>
              first
              | (simp only [ho] at h
                 simp only [Except.ok.injEq] at h
                 subst h
                 refine ⟨fun hj => absurd hj (by simp [hjson]), fun _ => ?_⟩
                 simp [keyCount_ite, lookupField_ite, keyCount_setField,
                   lookupField_setField, baseSchema_keyCount,
                   baseSchema_lookupField])
              | (rename_i os
                 simp only [ho] at h
                 cases hfv : filterHasValue os with
                 | error e =>
                   simp only [hfv] at h
                   exact absurd h (by simp)
                 | ok vos =>
                   simp only [hfv] at h
                   simp only [Except.ok.injEq] at h
                   subst h
                   refine ⟨fun hj => absurd hj (by simp [hjson]),
                     fun _ => ?_⟩
                   simp [keyCount_ite, lookupField_ite, keyCount_setField,
                     lookupField_setField, baseSchema_keyCount,
                     baseSchema_lookupField])
          · rw [if_neg c5] at h
            by_cases c6 : eqStr (lookupField fields "type") "collection" = true
            · rw [if_pos c6] at h
              have hjson : eqStr (lookupField fields "type") "json" = false := by
                rw [eqStr_true_iff] at c6; rw [c6]; rfl
              split at h <;>
                first
                | (simp only [Except.ok.injEq] at h
                   subst h
                   refine ⟨fun hj => absurd hj (by simp [hjson]),
                     fun _ => ?_⟩
                   simp [keyCount_ite, lookupField_ite, keyCount_setField,
                     lookupField_setField, baseSchema_keyCount,
                     baseSchema_lookupField])
                | (rename_i subs heq
                   cases hcv : convertSubList [] subs with
                   | error e =>
                     simp only [hcv] at h
                     exact absurd h (by simp)
                   | ok props =>
                     simp only [hcv] at h
                     simp only [Except.ok.injEq] at h
                     subst h
                     refine ⟨fun hj => absurd hj (by simp [hjson]),
                       fun _ => ?_⟩
                     simp [keyCount_ite, lookupField_ite, keyCount_setField,
                       lookupField_setField, baseSchema_keyCount,
                       baseSchema_lookupField])
            · rw [if_neg c6] at h
              by_cases c7 : eqStr (lookupField fields "type") "fixedCollection"
                  = true
              · rw [if_pos c7] at h
                have hjson : eqStr (lookupField fields "type") "json" = false := by
                  rw [eqStr_true_iff] at c7; rw [c7]; rfl
                split at h <;>
                  first
                  | (simp only [Except.ok.injEq] at h
                     subst h
                     refine ⟨fun hj => absurd hj (by simp [hjson]),
                       fun _ => ?_⟩
                     simp [keyCount_ite, lookupField_ite, keyCount_setField,
                       lookupField_setField, baseSchema_keyCount,
                       baseSchema_lookupField])
                  | (rename_i groups heq
                     cases hcg : convertGroupList
                         (truthy (lookupField fields "typeOptions") &&
                          truthy (dot (lookupField fields "typeOptions")
                            "multipleValues")) [] groups with
                     | error e =>
                       simp only [hcg] at h
                       exact absurd h (by simp)
                     | ok gprops =>
                       simp only [hcg] at h
                       simp only [Except.ok.injEq] at h
                       subst h
                       refine ⟨fun hj => absurd hj (by simp [hjson]),
                         fun _ => ?_⟩
                       simp [keyCount_ite, lookupField_ite,
                         keyCount_setField, lookupField_setField,
                         baseSchema_keyCount, baseSchema_lookupField])
              · rw [if_neg c7] at h
                by_cases c8 : eqStr (lookupField fields "type") "json" = true
                · rw [if_pos c8] at h
                  simp only [Except.ok.injEq] at h
                  subst h
                  refine ⟨fun _ => ?_, fun hj => absurd c8 (by simp [hj])⟩
                  constructor
                  · simp [keyCount_setField, baseSchema_keyCount]
                  · simp [keyCount_setField, baseSchema_keyCount]
                · rw [if_neg c8] at h
                  have hjson : eqStr (lookupField fields "type") "json"
                      = false := by
                    revert c8
                    cases eqStr (lookupField fields "type") "json" <;> simp
                  by_cases c9 : eqStr (lookupField fields "type") "dateTime"
                      = true
                  · rw [if_pos c9] at h
                    simp only [Except.ok.injEq] at h
                    subst h
                    refine ⟨fun hj => absurd hj (by simp [hjson]),
                      fun _ => ?_⟩
                    simp [keyCount_ite, lookupField_ite, keyCount_setField,
                      lookupField_setField, baseSchema_keyCount,
                      baseSchema_lookupField]
                  · rw [if_neg c9] at h
                    by_cases c10 : eqStr (lookupField fields "type") "color"
                        = true
                    · rw [if_pos c10] at h
                      simp only [Except.ok.injEq] at h
                      subst h
                      refine ⟨fun hj => absurd hj (by simp [hjson]),
                        fun _ => ?_⟩
                      simp [keyCount_ite, lookupField_ite, keyCount_setField,
                        lookupField_setField, baseSchema_keyCount,
                        baseSchema_lookupField]
                    · rw [if_neg c10] at h
                      by_cases c11 : eqStr (lookupField fields "type")
                          "resourceLocator" = true
                      · rw [if_pos c11] at h
                        cases hm : lookupField fields "modes" <;>
                          first
                          | (simp only [hm] at h
                             simp only [Except.ok.injEq] at h
                             subst h
                             refine ⟨fun hj => absurd hj (by simp [hjson]),
                               fun _ => ?_⟩
                             simp [keyCount_ite, lookupField_ite,
                               keyCount_setField, lookupField_setField,
                               baseSchema_keyCount, baseSchema_lookupField])
                          | (rename_i ms
                             simp only [hm] at h
                             cases hmn : mapModeNames ms with
                             | error e =>
                               simp only [hmn] at h
                               exact absurd h (by simp)
                             | ok ns =>
                               simp only [hmn] at h
                               cases hxm : mapXModes ms with
                               | error e =>
                                 simp only [hxm] at h
                                 exact absurd h (by simp)
                               | ok xs =>
                                 simp only [hxm] at h
                                 simp only [Except.ok.injEq] at h
                                 subst h
                                 refine ⟨fun hj =>
                                   absurd hj (by simp [hjson]),
                                   fun _ => ?_⟩
                                 simp [keyCount_ite, lookupField_ite,
                                   keyCount_setField, lookupField_setField,
                                   baseSchema_keyCount,
                                   baseSchema_lookupField])
                      · rw [if_neg c11] at h
                        by_cases c12 : eqStr (lookupField fields "type")
                            "filter" = true
                        · rw [if_pos c12] at h
                          simp only [Except.ok.injEq] at h
                          subst h
                          refine ⟨fun hj => absurd hj (by simp [hjson]),
                            fun _ => ?_⟩
                          simp [keyCount_ite, lookupField_ite,
                            keyCount_setField, lookupField_setField,
                            baseSchema_keyCount, baseSchema_lookupField]
                        · rw [if_neg c12] at h
                          by_cases c13 : eqStr (lookupField fields "type")
                              "credentialsSelect" = true
                          · rw [if_pos c13] at h
                            simp only [Except.ok.injEq] at h
                            subst h
                            refine ⟨fun hj => absurd hj (by simp [hjson]),
                              fun _ => ?_⟩
                            simp [keyCount_ite, lookupField_ite,
                              keyCount_setField, lookupField_setField,
                              baseSchema_keyCount, baseSchema_lookupField]
                          · rw [if_neg c13] at h
                            by_cases c14 : eqStr (lookupField fields "type")
                                "assignmentCollection" = true
                            · rw [if_pos c14] at h
                              simp only [Except.ok.injEq] at h
                              subst h
                              refine ⟨fun hj => absurd hj (by simp [hjson]),
                                fun _ => ?_⟩
                              simp [keyCount_ite, lookupField_ite,
                                keyCount_setField, lookupField_setField,
                                baseSchema_keyCount, baseSchema_lookupField]
                            · rw [if_neg c14] at h
                              simp only [Except.ok.injEq] at h
                              subst h
                              refine ⟨fun hj => absurd hj (by simp [hjson]),
                                fun _ => ?_⟩
                              simp [keyCount_ite, lookupField_ite,
                                keyCount_setField, lookupField_setField,
                                baseSchema_keyCount, baseSchema_lookupField]

/-- C6: every fragment propToSchema returns carries exactly one type keyword
whose value lies in the JSON Schema primitive set, except when the source
type tag is json, in which case it carries no type keyword and exactly one
oneOf disjunction; no fragment carries both or a duplicated type keyword. -/
theorem fragment_type_oneOf_invariant (prop : JValue)
    (fs : List (String × JValue))
    (h : propToSchema prop = .ok (some (.obj fs))) :
    (eqStr (dot prop "type") "json" = true →
      keyCount fs "type" = 0 ∧ keyCount fs "oneOf" = 1) ∧
    (eqStr (dot prop "type") "json" = false →
      keyCount fs "type" = 1 ∧ keyCount fs "oneOf" = 0 ∧
      lookupField fs "type" ∈ [JValue.str "string", .str "number",
        .str "boolean", .str "object", .str "array"]) := by
  rw [propToSchema] at h
  by_cases hg : (!truthy prop || !truthy (dot prop "name") ||
      eqStr (dot prop "type") "notice") = true
  · rw [if_pos hg] at h
    simp at h
  · rw [if_neg hg] at h
    obtain ⟨fields, rfl⟩ : ∃ fields, prop = .obj fields := by
      cases prop with
      | obj fields => exact ⟨fields, rfl⟩
      | undef => exact absurd (by simp [dot, truthy]) hg
      | null => exact absurd (by simp [dot, truthy]) hg
      | bool b => exact absurd (by simp [dot, truthy]) hg
      | num n => exact absurd (by simp [dot, truthy]) hg
      | str s => exact absurd (by simp [dot, truthy]) hg
      | arr l => exact absurd (by simp [dot, truthy]) hg
    simp only [objFields] at h
    cases hpf : propFragment fields with
    | error e =>
      rw [hpf] at h
      simp at h
    | ok s =>
      rw [hpf] at h
      simp only [Except.ok.injEq, Option.some.injEq, JValue.obj.injEq] at h
      subst h
      simpa [dot] using propFragment_type_oneOf fields s hpf

/-- Witness for C6 at a boolean property and at a json property. -/
theorem fragment_type_oneOf_invariant_witness :
    (keyCount [("type", JValue.str "boolean")] "type" = 1 ∧
     keyCount [("type", JValue.str "boolean")] "oneOf" = 0 ∧
     lookupField [("type", JValue.str "boolean")] "type" ∈
       [JValue.str "string", .str "number", .str "boolean", .str "object",
        .str "array"]) ∧
    (keyCount [("oneOf", JValue.arr [
        .obj [("type", .str "string"), ("description", .str "JSON string")],
        .obj [("type", .str "object")],
        .obj [("type", .str "array")]])] "type" = 0 ∧
     keyCount [("oneOf", JValue.arr [
        .obj [("type", .str "string"), ("description", .str "JSON string")],
        .obj [("type", .str "object")],
        .obj [("type", .str "array")]])] "oneOf" = 1) := by
  constructor
  · exact (fragment_type_oneOf_invariant
      (.obj [("name", .str "b"), ("type", .str "boolean")]) _
      (by simp [propToSchema, propFragment, baseSchema, lookupField, truthy,
        dot, setField, eqStr, isUndef, objFields])).2 (by rfl)
  · exact (fragment_type_oneOf_invariant
      (.obj [("name", .str "j"), ("type", .str "json")]) _
      (by simp [propToSchema, propFragment, baseSchema, lookupField, truthy,
        dot, setField, eqStr, isUndef, objFields])).1 (by rfl)

/-! ### C8: the resourceLocator case -/

/-- The fragment body of the resourceLocator case with a declared modes
array. -/
theorem propFragment_resourceLocator_modes (fields : List (String × JValue))
    (ms ns xs : List JValue)
    (htype : lookupField fields "type" = .str "resourceLocator")
    (hm : lookupField fields "modes" = .arr ms)
    (hmn : mapModeNames ms = .ok ns)
    (hxm : mapXModes ms = .ok xs) :
    propFragment fields = .ok (setField (setField (setField (setField
      (baseSchema fields) "type" (.str "object")) "properties" (.obj [
        ("__rl", .obj [("type", .str "boolean"), ("const", .bool true)]),
        ("mode", .obj [("type", .str "string"),
          ("enum", .arr (ns.filter truthy))]),
        ("value", .obj [("type", .str "string")])])) "required"
        (.arr [.str "mode", .str "value"])) "x-modes" (.arr xs)) := by
  rw [propFragment]
  simp [htype, hm, hmn, hxm, eqStr]

/-- The fragment body of the resourceLocator case when no modes array is
declared. -/
theorem propFragment_resourceLocator_nomodes (fields : List (String × JValue))
    (htype : lookupField fields "type" = .str "resourceLocator")
    (hm : isArrB (lookupField fields "modes") = false) :
    propFragment fields = .ok (setField (setField (setField
      (baseSchema fields) "type" (.str "object")) "properties" (.obj [
        ("__rl", .obj [("type", .str "boolean"), ("const", .bool true)]),
        ("mode", .obj [("type", .str "string"),
          ("enum", .arr [.str "id", .str "url", .str "list"])]),
        ("value", .obj [("type", .str "string")])])) "required"
        (.arr [.str "mode", .str "value"])) := by
  rw [propFragment]
  cases hmv : lookupField fields "modes" <;>
    first
    | (simp [htype, hmv, eqStr]; done)
    | (rw [hmv] at hm; simp [isArrB] at hm)

/-- C8 counterexample: a resourceLocator with one declared mode that has no
name produces a mode enumeration that is empty, not equal to the list of the
declared modes' names (which is the one-element list holding undefined); the
unnamed mode is still recorded under x-modes. -/
theorem resourceLocator_unnamed_mode_counterexample :
    propToSchema unnamedModeProp = .ok (some (.obj [
      ("type", .str "object"),
      ("properties", .obj [
        ("__rl", .obj [("type", .str "boolean"), ("const", .bool true)]),
        ("mode", .obj [("type", .str "string"), ("enum", .arr [])]),
        ("value", .obj [("type", .str "string")])]),
      ("required", .arr [.str "mode", .str "value"]),
      ("x-modes", .arr [.obj [("name", .undef), ("displayName", .undef),
        ("type", .undef)]])])) ∧
    mapModeNames [.obj []] = .ok [(.undef)] ∧
    JValue.arr ([] : List JValue) ≠ .arr [(.undef)] := by
  refine ⟨?_, by simp [mapModeNames, jsDotE, lookupField], by simp⟩
  simp [unnamedModeProp, propToSchema, propFragment, baseSchema, lookupField,
    truthy, dot, setField, eqStr, isUndef, mapModeNames, mapXModes, jsDotE,
    objFields]

/-- C8 (amended): a resourceLocator fragment is an object schema requiring
exactly mode and value, with the constant boolean discriminator __rl; its
mode enumeration holds the truthy names of the declared modes (modes with
falsy or missing names are dropped from the enumeration), or id, url, list
when no modes array is declared; when one is declared, every mode's name,
displayName and type are preserved under x-modes. -/
theorem resourceLocator_spec (fields : List (String × JValue))
    (hname : truthy (lookupField fields "name") = true)
    (htype : lookupField fields "type" = .str "resourceLocator") :
    (∀ ms ns xs, lookupField fields "modes" = .arr ms →
      mapModeNames ms = .ok ns → mapXModes ms = .ok xs →
      ∃ fs, propToSchema (.obj fields) = .ok (some (.obj fs)) ∧
        lookupField fs "type" = .str "object" ∧
        lookupField fs "required" = .arr [.str "mode", .str "value"] ∧
        dot (lookupField fs "properties") "__rl" =
          .obj [("type", .str "boolean"), ("const", .bool true)] ∧
        dot (lookupField fs "properties") "mode" =
          .obj [("type", .str "string"), ("enum", .arr (ns.filter truthy))] ∧
        dot (lookupField fs "properties") "value" =
          .obj [("type", .str "string")] ∧
        lookupField fs "x-modes" = .arr xs) ∧
    (isArrB (lookupField fields "modes") = false →
      ∃ fs, propToSchema (.obj fields) = .ok (some (.obj fs)) ∧
        lookupField fs "type" = .str "object" ∧
        lookupField fs "required" = .arr [.str "mode", .str "value"] ∧
        dot (lookupField fs "properties") "mode" =
          .obj [("type", .str "string"),
            ("enum", .arr [.str "id", .str "url", .str "list"])] ∧
        hasField fs "x-modes" = false) := by
  have hnotice : eqStr (lookupField fields "type") "notice" = false := by
    rw [htype]; rfl
  have hrun := propToSchema_obj_run fields hname hnotice
  constructor
  · intro ms ns xs hm hmn hxm
    have hfrag := propFragment_resourceLocator_modes fields ms ns xs htype
      hm hmn hxm
    rw [hfrag] at hrun
    refine ⟨_, hrun, ?_, ?_, ?_, ?_, ?_, ?_⟩ <;>
      simp [lookupField_setField, dot, lookupField]
  · intro hm
    have hfrag := propFragment_resourceLocator_nomodes fields htype hm
    rw [hfrag] at hrun
    refine ⟨_, hrun, ?_, ?_, ?_, ?_⟩
    · simp [lookupField_setField]
    · simp [lookupField_setField]
    · simp [lookupField_setField, dot, lookupField]
    · simp only [hasField_setField]
      simp only [baseSchema_hasField fields "x-modes"
        (by simp) (by simp) (by simp) (by simp) (by simp)]
      rfl

/-- Witness for C8: one named mode, and the default enumeration when the
modes attribute is absent. -/
theorem resourceLocator_spec_witness :
    (∃ fs, propToSchema (.obj [("name", .str "r"),
        ("type", .str "resourceLocator"),
        ("modes", .arr [.obj [("name", .str "id"),
          ("displayName", .str "ID"), ("type", .str "string")]])]) =
      .ok (some (.obj fs)) ∧
      dot (lookupField fs "properties") "mode" =
        .obj [("type", .str "string"), ("enum", .arr [.str "id"])] ∧
      lookupField fs "x-modes" = .arr [.obj [("name", .str "id"),
        ("displayName", .str "ID"), ("type", .str "string")]]) ∧
    (∃ fs, propToSchema (.obj [("name", .str "r"),
        ("type", .str "resourceLocator")]) = .ok (some (.obj fs)) ∧
      dot (lookupField fs "properties") "mode" =
        .obj [("type", .str "string"),
          ("enum", .arr [.str "id", .str "url", .str "list"])] ∧
      hasField fs "x-modes" = false) := by
  constructor
  · obtain ⟨fs, h1, -, -, -, h5, -, h7⟩ :=
      (resourceLocator_spec [("name", .str "r"),
        ("type", .str "resourceLocator"),
        ("modes", .arr [.obj [("name", .str "id"),
          ("displayName", .str "ID"), ("type", .str "string")]])]
        (by rfl) (by rfl)).1
      [.obj [("name", .str "id"), ("displayName", .str "ID"),
        ("type", .str "string")]]
      [.str "id"]
      [.obj [("name", .str "id"), ("displayName", .str "ID"),
        ("type", .str "string")]]
      (by rfl)
      (by simp [mapModeNames, jsDotE, lookupField])
      (by simp [mapXModes, jsDotE, dot, lookupField])
    exact ⟨fs, h1, by simpa [truthy] using h5, h7⟩
  · obtain ⟨fs, h1, -, -, h4, h5⟩ :=
      (resourceLocator_spec [("name", .str "r"),
        ("type", .str "resourceLocator")] (by rfl) (by rfl)).2 (by rfl)
    exact ⟨fs, h1, h4, h5⟩

/-! ### C10: the properties key of collection and fixedCollection -/

/-- A collection property whose options attribute is not an array gets a bare
object fragment. -/
theorem propFragment_collection_nonarr (fields : List (String × JValue))
    (htype : lookupField fields "type" = .str "collection")
    (hm : isArrB (lookupField fields "options") = false) :
    propFragment fields =
      .ok (setField (baseSchema fields) "type" (.str "object")) := by
  rw [propFragment]
  simp only [htype, eqStr, String.reduceBEq, String.reduceEq, Bool.or_self,
    Bool.or_false, Bool.false_eq_true, if_false, if_true]
  split
  · rename_i subs heq
    rw [heq] at hm
    simp [isArrB] at hm
  · rfl

/-- A fixedCollection property whose options attribute is not an array keeps
its initial empty properties object. -/
theorem propFragment_fixedCollection_nonarr (fields : List (String × JValue))
    (htype : lookupField fields "type" = .str "fixedCollection")
    (hm : isArrB (lookupField fields "options") = false) :
    propFragment fields =
      .ok (setField (setField (baseSchema fields) "type" (.str "object"))
        "properties" (.obj [])) := by
  rw [propFragment]
  simp only [htype, eqStr, String.reduceBEq, String.reduceEq, Bool.or_self,
    Bool.or_false, Bool.false_eq_true, if_false, if_true]
  split
  · rename_i groups heq
    rw [heq] at hm
    simp [isArrB] at hm
  · rfl

/-- A fixedCollection property with an options array whose group loop
succeeds gets the accumulated group schemas as its properties object. -/
theorem propFragment_fixedCollection_arr (fields : List (String × JValue))
    (gs : List JValue) (gprops : List (String × JValue))
    (htype : lookupField fields "type" = .str "fixedCollection")
    (hgs : lookupField fields "options" = .arr gs)
    (hcg : convertGroupList (truthy (lookupField fields "typeOptions") &&
      truthy (dot (lookupField fields "typeOptions") "multipleValues"))
      [] gs = .ok gprops) :
    propFragment fields =
      .ok (setField (setField (setField (baseSchema fields) "type"
        (.str "object")) "properties" (.obj [])) "properties"
        (.obj gprops)) := by
  rw [propFragment]
  simp only [htype, eqStr, String.reduceBEq, String.reduceEq, Bool.or_self,
    Bool.or_false, Bool.false_eq_true, if_false, if_true]
  split
  · rename_i groups heq
    rw [hgs] at heq
    injection heq with h2
    subst h2
    rw [hcg]
  · rename_i hne
    exact (hne gs hgs).elim

/-- The group loop contributes nothing when every group is falsy or lacks a
truthy name. -/
theorem convertGroupList_skip_all (gs : List JValue) (multi : Bool)
    (acc : List (String × JValue))
    (h : ∀ g ∈ gs, truthy g = false ∨ truthy (dot g "name") = false) :
    convertGroupList multi acc gs = .ok acc := by
  induction gs with
  | nil => rw [convertGroupList]
  | cons g rest ih =>
    rw [convertGroupList]
    rw [if_pos (h g (List.mem_cons_self g rest))]
    exact ih (fun x hx => h x (List.mem_cons_of_mem _ hx))

/-- Recovering the switch body output from a successful propToSchema run. -/
theorem propFragment_of_propToSchema (fields fs : List (String × JValue))
    (hname : truthy (lookupField fields "name") = true)
    (hnotice : eqStr (lookupField fields "type") "notice" = false)
    (h : propToSchema (.obj fields) = .ok (some (.obj fs))) :
    propFragment fields = .ok fs := by
  rw [propToSchema_obj_run fields hname hnotice] at h
  cases hpf : propFragment fields with
  | error e =>
    rw [hpf] at h
    simp at h
  | ok s =>
    rw [hpf] at h
    simp only [Except.ok.injEq, Option.some.injEq, JValue.obj.injEq] at h
    rw [h]

/-- Every successful fixedCollection fragment binds the properties key and is
an object schema. -/
theorem propFragment_fixedCollection_hasProps (fields fs :
    List (String × JValue))
    (htype : lookupField fields "type" = .str "fixedCollection")
    (h : propFragment fields = .ok fs) :
    hasField fs "properties" = true ∧
    lookupField fs "type" = .str "object" := by
  rw [propFragment] at h
  simp only [htype, eqStr, String.reduceBEq, String.reduceEq, Bool.or_self,
    Bool.or_false, Bool.false_eq_true, if_false, if_true] at h
  split at h
  · cases hcg : convertGroupList (truthy (lookupField fields "typeOptions") &&
        truthy (dot (lookupField fields "typeOptions") "multipleValues"))
        [] _ with
    | error e =>
      rw [hcg] at h
      simp at h
    | ok gprops =>
      simp only [hcg, Except.ok.injEq] at h
      subst h
      constructor
      · simp [hasField_setField]
      · simp [lookupField_setField]
  · simp only [Except.ok.injEq] at h
    subst h
    constructor
    · simp [hasField_setField]
    · simp [lookupField_setField]

/-- C10: a collection definition with a non-array options attribute yields an
object fragment with no properties key at all, whereas a fixedCollection
definition always binds the properties key — to the empty object when its
options attribute is not an array or when no group is truthy with a truthy
name. -/
theorem collection_fixedCollection_properties (fields :
    List (String × JValue))
    (hname : truthy (lookupField fields "name") = true) :
    (lookupField fields "type" = .str "collection" →
      isArrB (lookupField fields "options") = false →
      ∃ fs, propToSchema (.obj fields) = .ok (some (.obj fs)) ∧
        lookupField fs "type" = .str "object" ∧
        hasField fs "properties" = false) ∧
    (lookupField fields "type" = .str "fixedCollection" →
      (∀ fs, propToSchema (.obj fields) = .ok (some (.obj fs)) →
        hasField fs "properties" = true ∧
        lookupField fs "type" = .str "object") ∧
      (isArrB (lookupField fields "options") = false →
        ∃ fs, propToSchema (.obj fields) = .ok (some (.obj fs)) ∧
          lookupField fs "properties" = .obj []) ∧
      (∀ gs, lookupField fields "options" = .arr gs →
        (∀ g ∈ gs, truthy g = false ∨ truthy (dot g "name") = false) →
        ∃ fs, propToSchema (.obj fields) = .ok (some (.obj fs)) ∧
          lookupField fs "properties" = .obj [])) := by
  constructor
  · intro htype hopt
    have hnotice : eqStr (lookupField fields "type") "notice" = false := by
      rw [htype]; rfl
    have hrun := propToSchema_obj_run fields hname hnotice
    rw [propFragment_collection_nonarr fields htype hopt] at hrun
    refine ⟨_, hrun, ?_, ?_⟩
    · simp [lookupField_setField]
    · simp only [hasField_setField]
      simp only [baseSchema_hasField fields "properties"
        (by simp) (by simp) (by simp) (by simp) (by simp)]
      rfl
  · intro htype
    have hnotice : eqStr (lookupField fields "type") "notice" = false := by
      rw [htype]; rfl
    have hrun := propToSchema_obj_run fields hname hnotice
    refine ⟨?_, ?_, ?_⟩
    · intro fs hfs
      exact propFragment_fixedCollection_hasProps fields fs htype
        (propFragment_of_propToSchema fields fs hname hnotice hfs)
    · intro hopt
      have hrun2 := hrun
      rw [propFragment_fixedCollection_nonarr fields htype hopt] at hrun2
      refine ⟨_, hrun2, ?_⟩
      simp [lookupField_setField]
    · intro gs hgs hskip
      have hrun2 := hrun
      rw [propFragment_fixedCollection_arr fields gs [] htype hgs
        (convertGroupList_skip_all gs _ [] hskip)] at hrun2
      refine ⟨_, hrun2, ?_⟩
      simp [lookupField_setField]

/-- Witness for C10: a collection and a fixedCollection, both without an
options array, and a fixedCollection whose single group has no name. -/
theorem collection_fixedCollection_properties_witness :
    (∃ fs, propToSchema (.obj [("name", .str "c"),
        ("type", .str "collection")]) = .ok (some (.obj fs)) ∧
      hasField fs "properties" = false) ∧
    (∃ fs, propToSchema (.obj [("name", .str "f"),
        ("type", .str "fixedCollection")]) = .ok (some (.obj fs)) ∧
      lookupField fs "properties" = .obj []) ∧
    (∃ fs, propToSchema (.obj [("name", .str "f"),
        ("type", .str "fixedCollection"),
        ("options", .arr [.obj [("displayName", .str "G")]])]) =
        .ok (some (.obj fs)) ∧
      lookupField fs "properties" = .obj []) := by
  refine ⟨?_, ?_, ?_⟩
  · obtain ⟨fs, h1, -, h3⟩ :=
      (collection_fixedCollection_properties
        [("name", .str "c"), ("type", .str "collection")] (by rfl)).1
        (by rfl) (by rfl)
    exact ⟨fs, h1, h3⟩
  · obtain ⟨-, h2, -⟩ :=
      (collection_fixedCollection_properties
        [("name", .str "f"), ("type", .str "fixedCollection")] (by rfl)).2
        (by rfl)
    exact h2 (by rfl)
  · obtain ⟨-, -, h3⟩ :=
      (collection_fixedCollection_properties
        [("name", .str "f"), ("type", .str "fixedCollection"),
         ("options", .arr [.obj [("displayName", .str "G")]])] (by rfl)).2
        (by rfl)
    exact h3 [.obj [("displayName", .str "G")]] (by rfl)
      (by intro g hg
          simp only [List.mem_singleton] at hg
          subst hg
          right
          rfl)

/-! ### C4: the property loop of descToSchema -/

/-- The output mapping of the property loop, characterised key by key: a key
holds the fragment of the last contributing property of the list, and falls
back to the incoming accumulator when none contributes. -/
theorem convertSubList_lookup (props : List JValue)
    (acc m : List (String × JValue)) (h : convertSubList acc props = .ok m)
    (k : String) :
    lookupField m k =
      match props.reverse.find? (contribAs k) with
      | some p =>
        match propToSchema p with
        | .ok (some f) => f
        | _ => (.undef)
      | none => lookupField acc k := by
  induction props generalizing acc with
  | nil =>
    rw [convertSubList] at h
    simp only [Except.ok.injEq] at h
    subst h
    simp
  | cons p rest ih =>
    rw [convertSubList] at h
    rw [List.reverse_cons, List.find?_append, List.find?_singleton]
    by_cases hskip : truthy p = false ∨ truthy (dot p "name") = false
    · rw [if_pos hskip] at h
      rw [ih acc h]
      have hc : contribAs k p = false := by
        simp only [contribAs]
        rcases hskip with h1 | h1 <;> simp [h1]
      rw [hc]
      cases hf : rest.reverse.find? (contribAs k) <;> simp [hf]
    · rw [if_neg hskip] at h
      have hp2 : truthy p = true ∧ truthy (dot p "name") = true := by
        rw [not_or] at hskip
        constructor
        · cases hpp : truthy p
          · exact absurd hpp hskip.1
          · rfl
        · cases hpp : truthy (dot p "name")
          · exact absurd hpp hskip.2
          · rfl
      cases hps : propToSchema p with
      | error e =>
        rw [hps] at h
        simp at h
      | ok o =>
        cases o with
        | none =>
          rw [hps] at h
          rw [ih acc h]
          have hc : contribAs k p = false := by
            simp [contribAs, hps]
          rw [hc]
          cases hf : rest.reverse.find? (contribAs k) <;> simp [hf]
        | some f =>
          rw [hps] at h
          rw [ih _ h]
          have hc : contribAs k p =
              (toJSString (dot p "name") == k) := by
            simp [contribAs, hps, hp2.1, hp2.2]
          rw [hc]
          cases hf : rest.reverse.find? (contribAs k) with
          | some q => simp [hf]
          | none =>
            simp only [hf, Option.none_or]
            by_cases hkk : toJSString (dot p "name") = k
            · simp only [hkk, beq_self_eq_true, if_true]
              rw [lookupField_setField]
              simp [hkk, hps]
            · have : (toJSString (dot p "name") == k) = false := by
                simp [hkk]
              simp only [this, Bool.false_eq_true, if_false]
              rw [lookupField_setField]
              simp [hkk]

/-- C4: descToSchema iterates the properties of the description in order,
skips falsy entries and entries without a truthy name, inserts each fragment
under the property name, and on duplicate names the later fragment
overwrites the earlier one: each key of the output mapping holds the fragment
of the last contributing property. -/
theorem descToSchema_lastWins (desc vl : JValue) (props : List JValue)
    (m : List (String × JValue))
    (hp : dot desc "properties" = .arr props)
    (hm : convertSubList [] props = .ok m) :
    ∃ fs, descToSchema desc vl = .ok (.obj fs) ∧
      lookupField fs "properties" = .obj m ∧
      ∀ k, lookupField m k = lastFragment props k := by
  obtain ⟨dfields, rfl⟩ : ∃ dfields, desc = .obj dfields := by
    cases desc with
    | obj dfields => exact ⟨dfields, rfl⟩
    | undef => simp [dot] at hp
    | null => simp [dot] at hp
    | bool b => simp [dot] at hp
    | num n => simp [dot] at hp
    | str s => simp [dot] at hp
    | arr l => simp [dot] at hp
  obtain ⟨schema0, hds⟩ : ∃ schema0, descToSchema (.obj dfields) vl =
      .ok (.obj (setField schema0 "properties" (.obj m))) := by
    rw [descToSchema]
    · simp only [hp, jsOr, truthy, forOfProps, hm, if_true]
      exact ⟨_, rfl⟩
    · simp
    · simp
  refine ⟨_, hds, ?_, ?_⟩
  · rw [lookupField_setField]
    simp
  · intro k
    rw [convertSubList_lookup props [] m hm k, lastFragment]
    cases props.reverse.find? (contribAs k) <;> simp [lookupField]

/-- Witness for C4: a description with one nameless property and two
properties named a; the nameless one is skipped and the number fragment of
the second a wins. -/
theorem descToSchema_lastWins_witness :
    ∃ fs, descToSchema dupNameDesc .undef = .ok (.obj fs) ∧
      lookupField fs "properties" =
        .obj [("a", .obj [("type", .str "number")])] := by
  obtain ⟨fs, h1, h2, -⟩ := descToSchema_lastWins dupNameDesc (.undef)
    [.obj [("type", .str "boolean")],
     .obj [("name", .str "a"), ("type", .str "boolean")],
     .obj [("name", .str "a"), ("type", .str "number")]]
    [("a", .obj [("type", .str "number")])]
    (by simp [dupNameDesc, dot, lookupField])
    (by simp [convertSubList, propToSchema, propFragment, baseSchema,
      lookupField, truthy, dot, setField, eqStr, isUndef, toJSString,
      objFields])
  exact ⟨fs, h1, h2⟩

/-- Witness for C7 at the tag weird. -/
theorem unknown_type_degrades_to_string_witness :
    ∃ fs, propToSchema (.obj [("name", .str "p"), ("type", .str "weird")]) =
        .ok (some (.obj fs)) ∧
      lookupField fs "type" = .str "string" ∧
      lookupField fs "x-n8n-type" = .str "weird" := by
  have h := unknown_type_degrades_to_string
    [("name", .str "p"), ("type", .str "weird")] (by rfl) (by rfl)
  simpa [lookupField] using h

/-! ### C5: totality and idempotence of safeName -/

theorem mem_of_dropWhile {p : Char → Bool} {l : List Char} {a : Char}
    (h : a ∈ l.dropWhile p) : a ∈ l := by
  induction l with
  | nil => simpa using h
  | cons c rest ih =>
    rw [List.dropWhile_cons] at h
    by_cases hc : p c = true
    · rw [if_pos hc] at h
      exact List.mem_cons_of_mem _ (ih h)
    · rw [if_neg hc] at h
      exact h

theorem dropWhile_prefix_exists (p : Char → Bool) (l : List Char) :
    ∃ u, u ++ l.dropWhile p = l := by
  induction l with
  | nil => exact ⟨[], rfl⟩
  | cons c rest ih =>
    rw [List.dropWhile_cons]
    by_cases hc : p c = true
    · rw [if_pos hc]
      obtain ⟨u, hu⟩ := ih
      exact ⟨c :: u, by simp [hu]⟩
    · rw [if_neg hc]
      exact ⟨[], rfl⟩

theorem head_dropWhile_not {p : Char → Bool} {l : List Char} {c : Char}
    {t : List Char} (h : l.dropWhile p = c :: t) : p c = false := by
  induction l with
  | nil => simp at h
  | cons a rest ih =>
    rw [List.dropWhile_cons] at h
    by_cases ha : p a = true
    · rw [if_pos ha] at h
      exact ih h
    · rw [if_neg ha] at h
      injection h with h1 _
      subst h1
      cases hpa : p a with
      | false => rfl
      | true => exact absurd hpa ha

theorem dropWhile_eq_self_all {p : Char → Bool} {l : List Char}
    (h : ∀ a ∈ l, p a = false) : l.dropWhile p = l := by
  cases l with
  | nil => rfl
  | cons c rest =>
    rw [List.dropWhile_cons, h c (List.mem_cons_self c rest)]
    simp

theorem dropWhile_eq_self_head {p : Char → Bool} {l : List Char}
    (h : ∀ c t, l = c :: t → p c = false) : l.dropWhile p = l := by
  cases l with
  | nil => rfl
  | cons c rest =>
    rw [List.dropWhile_cons, h c rest rfl]
    simp

theorem mem_of_dropTrail {p : Char → Bool} {l : List Char} {a : Char}
    (h : a ∈ dropTrail p l) : a ∈ l := by
  rw [dropTrail, List.mem_reverse] at h
  have := mem_of_dropWhile h
  rwa [List.mem_reverse] at this

theorem dropTrail_eq_self_last {p : Char → Bool} {l : List Char}
    (h : ∀ c t, l.reverse = c :: t → p c = false) : dropTrail p l = l := by
  rw [dropTrail, dropWhile_eq_self_head h, List.reverse_reverse]

theorem dropTrail_eq_self_all {p : Char → Bool} {l : List Char}
    (h : ∀ a ∈ l, p a = false) : dropTrail p l = l := by
  rw [dropTrail, dropWhile_eq_self_all (fun a ha =>
    h a (List.mem_reverse.mp ha)), List.reverse_reverse]

theorem dropTrail_head_exists {p : Char → Bool} {l : List Char} {c : Char}
    {t : List Char} (h : dropTrail p l = c :: t) : ∃ t2, l = c :: t2 := by
  obtain ⟨u, hu⟩ := dropWhile_prefix_exists p l.reverse
  have h2 := congrArg List.reverse hu
  rw [List.reverse_append, List.reverse_reverse] at h2
  have h3 : dropTrail p l ++ u.reverse = l := h2
  rw [h] at h3
  exact ⟨t ++ u.reverse, by rw [← h3]; simp⟩

theorem dropTrail_last_not {p : Char → Bool} {l : List Char} {c : Char}
    {t : List Char} (h : (dropTrail p l).reverse = c :: t) : p c = false := by
  rw [dropTrail, List.reverse_reverse] at h
  exact head_dropWhile_not h

theorem mem_collapseWs {l : List Char} {a : Char} (h : a ∈ collapseWs l) :
    a = '_' ∨ (a ∈ l ∧ jsWsChar a = false) := by
  induction l with
  | nil => simp [collapseWs] at h
  | cons c rest ih =>
    cases rest with
    | nil =>
      rw [collapseWs] at h
      by_cases hc : jsWsChar c = true
      · rw [if_pos hc] at h
        simp at h
        exact Or.inl h
      · rw [if_neg hc] at h
        simp at h
        subst h
        exact Or.inr ⟨List.mem_cons_self _ _, by
          cases hd : jsWsChar a
          · rfl
          · exact absurd hd hc⟩
    | cons d rest2 =>
      rw [collapseWs] at h
      by_cases hcd : (jsWsChar c && jsWsChar d) = true
      · rw [if_pos hcd] at h
        rcases ih h with h1 | ⟨h1, h2⟩
        · exact Or.inl h1
        · exact Or.inr ⟨List.mem_cons_of_mem _ h1, h2⟩
      · rw [if_neg hcd] at h
        rcases List.mem_cons.mp h with h1 | h1
        · subst h1
          by_cases hc : jsWsChar c = true
          · rw [if_pos hc]
            exact Or.inl rfl
          · rw [if_neg hc]
            exact Or.inr ⟨List.mem_cons_self _ _, by
              cases hd : jsWsChar c
              · rfl
              · exact absurd hd hc⟩
        · rcases ih h1 with h2 | ⟨h2, h3⟩
          · exact Or.inl h2
          · exact Or.inr ⟨List.mem_cons_of_mem _ h2, h3⟩

theorem collapseWs_eq_self {l : List Char}
    (h : ∀ a ∈ l, jsWsChar a = false) : collapseWs l = l := by
  induction l with
  | nil => rfl
  | cons c rest ih =>
    cases rest with
    | nil =>
      rw [collapseWs, h c (List.mem_cons_self c [])]
      simp
    | cons d rest2 =>
      rw [collapseWs]
      rw [h c (List.mem_cons_self _ _),
        h d (List.mem_cons_of_mem _ (List.mem_cons_self _ _))]
      simp only [Bool.and_self, Bool.false_eq_true, if_false]
      rw [ih (fun x hx => h x (List.mem_cons_of_mem _ hx))]

theorem mem_collapseUnd {l : List Char} {a : Char} (h : a ∈ collapseUnd l) :
    a ∈ l := by
  induction l with
  | nil => simpa [collapseUnd] using h
  | cons c rest ih =>
    cases rest with
    | nil => simpa [collapseUnd] using h
    | cons d rest2 =>
      rw [collapseUnd] at h
      by_cases hcd : (c == '_' && d == '_') = true
      · rw [if_pos hcd] at h
        exact List.mem_cons_of_mem _ (ih h)
      · rw [if_neg hcd] at h
        rcases List.mem_cons.mp h with h1 | h1
        · subst h1
          exact List.mem_cons_self _ _
        · exact List.mem_cons_of_mem _ (ih h1)

theorem noDouble_tail {c : Char} {l : List Char}
    (h : noDouble (c :: l) = true) : noDouble l = true := by
  cases l with
  | nil => rfl
  | cons d rest =>
    rw [noDouble] at h
    exact (Bool.and_eq_true_iff.mp h).2

theorem collapseUnd_eq_self {l : List Char} (h : noDouble l = true) :
    collapseUnd l = l := by
  induction l with
  | nil => rfl
  | cons c rest ih =>
    cases rest with
    | nil => rfl
    | cons d rest2 =>
      rw [noDouble] at h
      obtain ⟨h1, h2⟩ := Bool.and_eq_true_iff.mp h
      rw [collapseUnd]
      have hcd : (c == '_' && d == '_') = false := by
        cases hx : (c == '_' && d == '_')
        · rfl
        · rw [hx] at h1
          simp at h1
      rw [hcd]
      simp only [Bool.false_eq_true, if_false]
      rw [ih h2]

theorem collapseUnd_head (l : List Char) :
    (collapseUnd l).head? = l.head? := by
  induction l with
  | nil => rfl
  | cons c rest ih =>
    cases rest with
    | nil => rfl
    | cons d rest2 =>
      rw [collapseUnd]
      by_cases hcd : (c == '_' && d == '_') = true
      · rw [if_pos hcd]
        rw [ih]
        obtain ⟨hc, hd⟩ := Bool.and_eq_true_iff.mp hcd
        have hc2 : c = '_' := by simpa using hc
        have hd2 : d = '_' := by simpa using hd
        simp [hc2, hd2]
      · rw [if_neg hcd]
        rfl

theorem noDouble_collapseUnd (l : List Char) :
    noDouble (collapseUnd l) = true := by
  induction l with
  | nil => rfl
  | cons c rest ih =>
    cases rest with
    | nil => rfl
    | cons d rest2 =>
      rw [collapseUnd]
      by_cases hcd : (c == '_' && d == '_') = true
      · rw [if_pos hcd]
        exact ih
      · rw [if_neg hcd]
        have hhead := collapseUnd_head (d :: rest2)
        cases hcu : collapseUnd (d :: rest2) with
        | nil => rfl
        | cons x xs =>
          rw [hcu] at hhead ih
          have hx : x = d := by
            simp only [List.head?] at hhead
            injection hhead
          subst hx
          rw [noDouble]
          rw [Bool.and_eq_true_iff]
          constructor
          · cases hb : (c == '_' && x == '_')
            · rfl
            · exact absurd hb hcd
          · exact ih

theorem noDouble_dropWhile {p : Char → Bool} {l : List Char}
    (h : noDouble l = true) : noDouble (l.dropWhile p) = true := by
  induction l with
  | nil => rfl
  | cons c rest ih =>
    rw [List.dropWhile_cons]
    by_cases hc : p c = true
    · rw [if_pos hc]
      exact ih (noDouble_tail h)
    · rw [if_neg hc]
      exact h

theorem noDouble_append_singleton {l : List Char} {a : Char}
    (h : noDouble l = true) (h2 : pairOK l.getLast? a = true) :
    noDouble (l ++ [a]) = true := by
  induction l with
  | nil => rfl
  | cons c rest ih =>
    cases rest with
    | nil =>
      simp only [List.cons_append, List.nil_append]
      rw [noDouble]
      rw [Bool.and_eq_true_iff]
      refine ⟨?_, rfl⟩
      simpa [pairOK] using h2
    | cons d rest2 =>
      have hstep : noDouble ((d :: rest2) ++ [a]) = true := by
        apply ih (noDouble_tail h)
        simpa [List.getLast?] using h2
      simp only [List.cons_append] at hstep ⊢
      rw [noDouble, Bool.and_eq_true_iff]
      constructor
      · rw [noDouble] at h
        exact (Bool.and_eq_true_iff.mp h).1
      · exact hstep

theorem noDouble_reverse_of {l : List Char} (h : noDouble l = true) :
    noDouble l.reverse = true := by
  induction l with
  | nil => rfl
  | cons c rest ih =>
    rw [List.reverse_cons]
    apply noDouble_append_singleton (ih (noDouble_tail h))
    rw [List.getLast?_reverse]
    cases rest with
    | nil => rfl
    | cons d rest2 =>
      rw [noDouble] at h
      have h1 := (Bool.and_eq_true_iff.mp h).1
      simp only [List.head?, pairOK]
      cases hb : (d == '_' && c == '_')
      · rfl
      · obtain ⟨hd, hc⟩ := Bool.and_eq_true_iff.mp hb
        rw [hc, hd] at h1
        simp at h1

theorem noDouble_dropTrail {p : Char → Bool} {l : List Char}
    (h : noDouble l = true) : noDouble (dropTrail p l) = true := by
  rw [dropTrail]
  exact noDouble_reverse_of (noDouble_dropWhile (noDouble_reverse_of h))

/-- The invariants the sanitizing pipeline establishes stage by stage: after
the whitespace collapse no whitespace survives, after the underscore collapse
no double underscore survives, and the edge strips leave no leading or
trailing underscore. -/
theorem stages_spec (s1 s2 s3 s4 s5 : List Char)
    (h1 : ∀ a ∈ s1, forbiddenChar a = false)
    (e2 : s2 = collapseWs s1)
    (e3 : s3 = collapseUnd s2)
    (e4 : s4 = dropTrail (fun c => c == '_')
      (s3.dropWhile (fun c => c == '_')))
    (e5 : s5 = dropTrail jsWsChar (s4.dropWhile jsWsChar)) :
    (∀ a ∈ s5, forbiddenChar a = false ∧ jsWsChar a = false) ∧
    noDouble s5 = true ∧
    (∀ c t, s5 = c :: t → (c == '_') = false) ∧
    (∀ c t, s5.reverse = c :: t → (c == '_') = false) := by
  have good2 : ∀ a ∈ s2, forbiddenChar a = false ∧ jsWsChar a = false := by
    intro a ha
    rw [e2] at ha
    rcases mem_collapseWs ha with h | ⟨hm, hw⟩
    · subst h
      exact ⟨by decide, by decide⟩
    · exact ⟨h1 a hm, hw⟩
  have m32 : ∀ a ∈ s3, a ∈ s2 := by
    intro a ha
    rw [e3] at ha
    exact mem_collapseUnd ha
  have m43 : ∀ a ∈ s4, a ∈ s3 := by
    intro a ha
    rw [e4] at ha
    exact mem_of_dropWhile (mem_of_dropTrail ha)
  have good4 : ∀ a ∈ s4, forbiddenChar a = false ∧ jsWsChar a = false :=
    fun a ha => good2 a (m32 a (m43 a ha))
  have e5' : s5 = s4 := by
    rw [e5, dropWhile_eq_self_all (fun a ha => (good4 a ha).2),
      dropTrail_eq_self_all (fun a ha => (good4 a ha).2)]
  have nd3 : noDouble s3 = true := by
    rw [e3]
    exact noDouble_collapseUnd s2
  have nd4 : noDouble s4 = true := by
    rw [e4]
    exact noDouble_dropTrail (noDouble_dropWhile nd3)
  refine ⟨?_, ?_, ?_, ?_⟩
  · intro a ha
    exact good4 a (e5' ▸ ha)
  · rw [e5']
    exact nd4
  · intro c t hct
    rw [e5', e4] at hct
    obtain ⟨t2, ht2⟩ := dropTrail_head_exists hct
    exact @head_dropWhile_not (fun c => c == '_') s3 c t2 ht2
  · intro c t hct
    rw [e5', e4] at hct
    exact @dropTrail_last_not (fun c => c == '_')
      (s3.dropWhile (fun c => c == '_')) c t hct

/-- The result of the sanitizing pipeline, including the unknown fallback, is
a nonempty string with no forbidden or whitespace characters, no double
underscore, and no underscore at either edge. -/
theorem safeName_result_spec (s1 s2 s3 s4 s5 : List Char) (r : String)
    (h1 : ∀ a ∈ s1, forbiddenChar a = false)
    (e2 : s2 = collapseWs s1)
    (e3 : s3 = collapseUnd s2)
    (e4 : s4 = dropTrail (fun c => c == '_')
      (s3.dropWhile (fun c => c == '_')))
    (e5 : s5 = dropTrail jsWsChar (s4.dropWhile jsWsChar))
    (er : r = if s5 = [] then "unknown" else String.mk s5) :
    (∀ a ∈ r.toList, forbiddenChar a = false ∧ jsWsChar a = false) ∧
    noDouble r.toList = true ∧
    (∀ c t, r.toList = c :: t → (c == '_') = false) ∧
    (∀ c t, r.toList.reverse = c :: t → (c == '_') = false) ∧
    r.toList ≠ [] := by
  obtain ⟨g5, nd5, hd5, lt5⟩ := stages_spec s1 s2 s3 s4 s5 h1 e2 e3 e4 e5
  by_cases h0 : s5 = []
  · rw [er, if_pos h0]
    have hu : ("unknown" : String).toList =
        ['u', 'n', 'k', 'n', 'o', 'w', 'n'] := rfl
    refine ⟨?_, ?_, ?_, ?_, ?_⟩
    · rw [hu]
      decide
    · rw [hu]
      decide
    · intro c t hct
      rw [hu] at hct
      injection hct with hc _
      subst hc
      decide
    · intro c t hct
      rw [hu] at hct
      rw [show (['u', 'n', 'k', 'n', 'o', 'w', 'n'] : List Char).reverse =
        ['n', 'w', 'o', 'n', 'k', 'n', 'u'] from rfl] at hct
      injection hct with hc _
      subst hc
      decide
    · rw [hu]
      decide
  · rw [er, if_neg h0]
    have ht : (String.mk s5).toList = s5 := rfl
    rw [ht]
    exact ⟨g5, nd5, hd5, lt5, h0⟩

/-- Every character-level invariant of safeName's output. -/
theorem safeName_toList_spec (v : JValue) :
    (∀ a ∈ (safeName v).toList,
      forbiddenChar a = false ∧ jsWsChar a = false) ∧
    noDouble (safeName v).toList = true ∧
    (∀ c t, (safeName v).toList = c :: t → (c == '_') = false) ∧
    (∀ c t, (safeName v).toList.reverse = c :: t → (c == '_') = false) ∧
    (safeName v).toList ≠ [] := by
  refine safeName_result_spec
    (((toJSString (jsOr v (.str "unknown"))).toList).filter
      (fun c => !forbiddenChar c))
    _ _ _ _ (safeName v)
    (fun a ha => by
      have := List.of_mem_filter ha
      simpa using this)
    rfl rfl rfl rfl ?_
  rw [safeName]

/-- C5: safeName is total and deterministic — on every input, including the
absent ones, it returns a non-empty string — and idempotent: sanitizing its
own output returns it unchanged. -/
theorem safeName_total_idempotent (v : JValue) :
    safeName v ≠ "" ∧ safeName (.str (safeName v)) = safeName v := by
  obtain ⟨hgood, hnd, hhead, hlast, hnonempty⟩ := safeName_toList_spec v
  have hne : safeName v ≠ "" := by
    intro hc
    apply hnonempty
    rw [hc]
    rfl
  refine ⟨hne, ?_⟩
  have h0 : toJSString (jsOr (.str (safeName v)) (.str "unknown")) =
      safeName v := by
    rw [jsOr]
    have htr : truthy (.str (safeName v)) = true := by
      simp [truthy]
      exact hne
    rw [if_pos htr]
    simp [toJSString]
  have h1 : (safeName v).toList.filter (fun c => !forbiddenChar c) =
      (safeName v).toList :=
    List.filter_eq_self.mpr (fun a ha => by simp [(hgood a ha).1])
  have h2 : collapseWs (safeName v).toList = (safeName v).toList :=
    collapseWs_eq_self (fun a ha => (hgood a ha).2)
  have h3 : collapseUnd (safeName v).toList = (safeName v).toList :=
    collapseUnd_eq_self hnd
  have h4a : (safeName v).toList.dropWhile (fun c => c == '_') =
      (safeName v).toList :=
    dropWhile_eq_self_head (fun c t hct => hhead c t hct)
  have h4b : dropTrail (fun c => c == '_') (safeName v).toList =
      (safeName v).toList :=
    dropTrail_eq_self_last (fun c t hct => hlast c t hct)
  have h5a : (safeName v).toList.dropWhile jsWsChar = (safeName v).toList :=
    dropWhile_eq_self_all (fun a ha => (hgood a ha).2)
  have h5b : dropTrail jsWsChar (safeName v).toList = (safeName v).toList :=
    dropTrail_eq_self_all (fun a ha => (hgood a ha).2)
  conv_lhs => rw [safeName]
  simp only [h0, h1, h2, h3, h4a, h4b, h5a, h5b]
  rw [if_neg hnonempty]
  have : ∀ s : String, String.mk s.toList = s := by
    intro s
    cases s
    rfl
  exact this (safeName v)

end GenSchemas
